import Mathlib

/-!
# Verification of the `github_migrator` package

Shallow embedding of the resumable GitHub organization migrator:

* `src/github_migrator/state_manager.py` — the checkpoint store.  The JSON
  checkpoint document is modelled as an association list from repository name
  to a record whose fields are `Option`-valued, so that JSON keys that are
  absent in a legacy document are represented by `none`.  Python's in-place
  dict update keeps the position of an existing key and appends new keys at
  the end, which `alist_set` reproduces.  Issue records are keyed by the
  issue number itself: the Python code keys them by `str(issue_number)`, and
  since `str` is injective on the integers used as keys, keying by the number
  is an extensionally identical model.
* `src/github_migrator/rate_limiter.py` — timestamps are modelled as
  rationals and the current wall-clock time is passed explicitly; each Python
  method is modelled as completing at a single instant.
* `src/github_migrator/migrator.py` — the orchestrator, modelled as explicit
  state passing over a `World` holding the checkpoint document, the ordered
  trace of remote API calls issued so far, the ordered log of checkpoint
  mutation calls, and the number the target repository will assign to the
  next created issue (the remote platform assigns issue numbers sequentially,
  which is the premise of the numbering-preservation algorithm).  Remote
  failures are external nondeterminism, modelled by an oracle mapping the
  index of a remote call (its position in the trace) to `none` (success) or
  `some msg` (a `GitHubAPIError` carrying message `msg`).
-/

/-- Lookup in an association list, mirroring Python `d[k]` / `k in d`. -/
def alist_get {κ α : Type} [DecidableEq κ] : List (κ × α) → κ → Option α
  | [], _ => none
  | (k', v) :: rest, k => if k' = k then some v else alist_get rest k

/-- Update/insert in an association list, mirroring Python `d[k] = v`:
an existing key keeps its position, a new key is appended at the end. -/
def alist_set {κ α : Type} [DecidableEq κ] : List (κ × α) → κ → α → List (κ × α)
  | [], k, v => [(k, v)]
  | (k', v') :: rest, k, v =>
      if k' = k then (k, v) :: rest else (k', v') :: alist_set rest k v

/-- One issue record inside the checkpoint document
(`{"completed": ..., "comments_completed": ...}`); a `none` field models a
JSON key that is absent. -/
structure IssueData where
  completed : Option Bool
  comments_completed : Option Nat
deriving DecidableEq, Repr

/-- One repository record inside the checkpoint document; a `none` field
models a JSON key that is absent (legacy schema). -/
structure RepoData where
  content_completed : Option Bool
  issues_completed : Option Bool
  issues : Option (List (Nat × IssueData))
deriving DecidableEq, Repr

/-- The whole checkpoint document: `{"repositories": {...}}`. -/
structure MigState where
  repositories : List (String × RepoData)
deriving DecidableEq, Repr

/-- `StateManager._ensure_repo_exists`, inference part: `issues_completed` is
inferred as true iff any issue record is marked completed. -/
def infer_issues_completed (issues : List (Nat × IssueData)) : Bool :=
  issues.any (fun p => p.2.completed.getD false)

/-- The record `_ensure_repo_exists` creates for a repository that is not in
the document yet: all flags false, no issues. -/
def new_repo : RepoData := ⟨some false, some false, some []⟩

/-- The field-filling part of `StateManager._ensure_repo_exists` applied to a
record that is already present: fill `content_completed` with false, infer
`issues_completed` from the issue records, fill `issues` with `{}` — each
only when the field is absent, in this order (the inference reads the
`issues` field before it is filled). -/
def repair_repo (rd : RepoData) : RepoData :=
  let rd1 := if rd.content_completed.isSome then rd
             else { rd with content_completed := some false }
  let rd2 := if rd1.issues_completed.isSome then rd1
             else { rd1 with
                    issues_completed := some (infer_issues_completed (rd1.issues.getD [])) }
  if rd2.issues.isSome then rd2 else { rd2 with issues := some [] }

/-- `StateManager._ensure_repo_exists`. -/
def ensure_repo_exists (s : MigState) (repo : String) : MigState :=
  match alist_get s.repositories repo with
  | none => ⟨alist_set s.repositories repo new_repo⟩
  | some rd => ⟨alist_set s.repositories repo (repair_repo rd)⟩

/-- `StateManager._ensure_issue_exists`. -/
def ensure_issue_exists (s : MigState) (repo : String) (n : Nat) : MigState :=
  let s' := ensure_repo_exists s repo
  match alist_get s'.repositories repo with
  | some rd =>
    let iss := rd.issues.getD []
    match alist_get iss n with
    | some _ => s'
    | none => ⟨alist_set s'.repositories repo
        { rd with issues := some (alist_set iss n ⟨some false, some 0⟩) }⟩
  | none => s'

/-- `StateManager.is_repo_completed`: pure query; the Python method repairs
the record only on its in-memory copy and never writes the document back, so
it is modelled as a function that does not return a new state. -/
def is_repo_completed (s : MigState) (repo : String) : Bool :=
  match alist_get s.repositories repo with
  | none => false
  | some rd =>
    let rd' := repair_repo rd
    rd'.content_completed.getD false && rd'.issues_completed.getD false

/-- `StateManager.is_content_completed`: returns the flag and the state as
persisted by the method (for an unknown repository it returns early without
writing; for a present repository it writes the repaired record back). -/
def is_content_completed (s : MigState) (repo : String) : Bool × MigState :=
  match alist_get s.repositories repo with
  | none => (false, s)
  | some _ =>
    let s' := ensure_repo_exists s repo
    (match alist_get s'.repositories repo with
     | some rd => rd.content_completed.getD false
     | none => false, s')

/-- `StateManager.is_issues_completed`: same write-back discipline as
`is_content_completed`. -/
def is_issues_completed (s : MigState) (repo : String) : Bool × MigState :=
  match alist_get s.repositories repo with
  | none => (false, s)
  | some _ =>
    let s' := ensure_repo_exists s repo
    (match alist_get s'.repositories repo with
     | some rd => rd.issues_completed.getD false
     | none => false, s')

/-- `StateManager.mark_content_completed`. -/
def mark_content_completed (s : MigState) (repo : String) : MigState :=
  let s' := ensure_repo_exists s repo
  match alist_get s'.repositories repo with
  | some rd => ⟨alist_set s'.repositories repo { rd with content_completed := some true }⟩
  | none => s'

/-- `StateManager.mark_issues_completed`. -/
def mark_issues_completed (s : MigState) (repo : String) : MigState :=
  let s' := ensure_repo_exists s repo
  match alist_get s'.repositories repo with
  | some rd => ⟨alist_set s'.repositories repo { rd with issues_completed := some true }⟩
  | none => s'

/-- `StateManager.is_issue_completed`: pure query; returns false when the
repository or the issue record is absent.  (When a repository record is
present but lacks the `issues` key the Python code would raise `KeyError`;
that state is unreachable through the migrator, whose initial
`is_content_completed` / `is_issues_completed` queries repair such a record
before any issue is examined, so the model reads the field with default
`[]`.) -/
def is_issue_completed (s : MigState) (repo : String) (n : Nat) : Bool :=
  match alist_get s.repositories repo with
  | none => false
  | some rd =>
    match alist_get (rd.issues.getD []) n with
    | none => false
    | some idata => idata.completed.getD false

/-- `StateManager.mark_issue_completed`. -/
def mark_issue_completed (s : MigState) (repo : String) (n : Nat) : MigState :=
  let s' := ensure_issue_exists s repo n
  match alist_get s'.repositories repo with
  | some rd =>
    let iss := rd.issues.getD []
    match alist_get iss n with
    | some idata => ⟨alist_set s'.repositories repo
        { rd with issues := some (alist_set iss n { idata with completed := some true }) }⟩
    | none => s'
  | none => s'

/-- `StateManager.get_comment_progress`: pure query, default 0.  (Same
`KeyError` caveat as `is_issue_completed`.) -/
def get_comment_progress (s : MigState) (repo : String) (n : Nat) : Nat :=
  match alist_get s.repositories repo with
  | none => 0
  | some rd =>
    match alist_get (rd.issues.getD []) n with
    | none => 0
    | some idata => idata.comments_completed.getD 0

/-- `StateManager.update_comment_progress`. -/
def update_comment_progress (s : MigState) (repo : String) (n v : Nat) : MigState :=
  let s' := ensure_issue_exists s repo n
  match alist_get s'.repositories repo with
  | some rd =>
    let iss := rd.issues.getD []
    match alist_get iss n with
    | some idata => ⟨alist_set s'.repositories repo
        { rd with issues := some (alist_set iss n { idata with comments_completed := some v }) }⟩
    | none => s'
  | none => s'

/-- A repository record with every field present — what `_ensure_repo_exists`
guarantees after it has run. -/
def populatedB (rd : RepoData) : Bool :=
  rd.content_completed.isSome && rd.issues_completed.isSome && rd.issues.isSome

/-- The boolean `is_content_completed` computes, as a pure observation of the
document: false for an unknown repository, otherwise the stored flag with the
missing-key default false. -/
def contentDoneVal (s : MigState) (repo : String) : Bool :=
  match alist_get s.repositories repo with
  | none => false
  | some rd => rd.content_completed.getD false

/-- The boolean `is_issues_completed` computes, as a pure observation of the
document: false for an unknown repository, the stored flag when present, and
the legacy inference over the issue records when the flag is absent. -/
def issuesDoneVal (s : MigState) (repo : String) : Bool :=
  match alist_get s.repositories repo with
  | none => false
  | some rd =>
    match rd.issues_completed with
    | some b => b
    | none => infer_issues_completed (rd.issues.getD [])

/-- `populatedB` as an observation of the whole document. -/
def populatedAt (s : MigState) (repo : String) : Bool :=
  match alist_get s.repositories repo with
  | none => false
  | some rd => populatedB rd

/-- `RequestWindow` dataclass from `rate_limiter.py` (defaults there:
`timestamps=[]`, `limit=20`, `window_seconds=60`).  Timestamps are rationals
standing for `time.time()` values. -/
structure RequestWindow where
  timestamps : List ℚ
  limit : Nat
  window_seconds : Nat
deriving DecidableEq, Repr

/-- `RateLimiter._clean_old_requests` at instant `now`: keep only timestamps
strictly newer than `now - window_seconds`. -/
def clean_old_requests (w : RequestWindow) (now : ℚ) : RequestWindow :=
  let cutoff : ℚ := now - (w.window_seconds : ℚ)
  { w with timestamps := w.timestamps.filter (fun ts => decide (cutoff < ts)) }

/-- `RateLimiter.can_make_request` at instant `now`: purge, then admit iff
strictly fewer than `limit` timestamps remain.  The Python purge mutates the
window in place, so the purged window is returned alongside the answer. -/
def can_make_request (w : RequestWindow) (now : ℚ) : Bool × RequestWindow :=
  let w' := clean_old_requests w now
  (decide (w'.timestamps.length < w'.limit), w')

/-- `RateLimiter.record_request` at instant `now`: append the current
timestamp, then purge. -/
def record_request (w : RequestWindow) (now : ℚ) : RequestWindow :=
  clean_old_requests { w with timestamps := w.timestamps ++ [now] } now

/-- `RateLimiter.wait_if_necessary` at instant `now`: returns the duration
for which the calling thread is suspended (`0` when `time.sleep` is not
reached) together with the window as mutated by the embedded purge.  The
method returns right after the sleep without re-checking admissibility. -/
def wait_if_necessary (w : RequestWindow) (now : ℚ) : ℚ × RequestWindow :=
  match can_make_request w now with
  | (true, w') => (0, w')
  | (false, w') =>
    match w'.timestamps with
    | [] => (0, w')
    | t :: ts =>
      let oldest := ts.foldl min t
      let wait : ℚ := (w'.window_seconds : ℚ) - (now - oldest)
      (if 0 < wait then wait else 0, w')

/-- `GitHubMigrator` configuration relevant to the claims. -/
structure Config where
  source_org : String
  target_org : String
  migrate_content : Bool
deriving DecidableEq, Repr

/-- A comment descriptor from the remote listing; `none` models a missing
key (or a missing nested `user.login`). -/
structure Comment where
  body : Option String
  user : Option String
  created_at : Option String
deriving DecidableEq, Repr

/-- The `comments` field of an issue descriptor: either a bare count or a
materialized ordered list (the `isinstance` checks in
`_migrate_single_issue`). -/
inductive CommentsField
  | count (n : Nat)
  | objs (cs : List Comment)
deriving DecidableEq, Repr

/-- An issue descriptor from the remote listing. -/
structure Issue where
  number : Nat
  title : String
  body : Option String
  state : String
  user : Option String
  created_at : Option String
  comments : CommentsField
deriving DecidableEq, Repr

/-- Remote API calls the orchestrator can issue, as recorded in the trace.
`contentTransfer` stands for the whole git clone/push of
`migrate_repository_content`, whose success/failure is an input of the
model (the transfer is an external collaborator). -/
inductive RemoteOp
  | createRepo (org name : String)
  | getIssuesList (org repo : String)
  | createIssue (org repo title body : String)
  | closeIssue (org repo : String) (number : Nat)
  | getComments (org repo : String) (number : Nat)
  | createComment (org repo : String) (number : Nat) (body : String)
  | contentTransfer (repo : String)
deriving DecidableEq, Repr

/-- Checkpoint-store mutation calls made by the orchestrator, in call order
(`mark_*` and `update_comment_progress` call sites; the read-repair writes
performed inside queries change no completion value and are not mutations). -/
inductive CkptOp
  | markContentDone (repo : String)
  | markIssuesDone (repo : String)
  | markIssueDone (repo : String) (n : Nat)
  | setCursor (repo : String) (n : Nat) (value : Nat)
deriving DecidableEq, Repr

/-- The state threaded through the orchestrator: checkpoint document, trace
of remote calls, log of checkpoint mutations, and the number the target
repository will assign to the next created issue (the platform assigns issue
numbers sequentially, the premise of numbering preservation). -/
structure World where
  ckpt : MigState
  trace : List RemoteOp
  ckptLog : List CkptOp
  nextIssueNumber : Nat
deriving DecidableEq, Repr

/-- Remote failure oracle: outcome of the k-th remote call of the run
(`none` = success, `some msg` = `GitHubAPIError` carrying `msg`). -/
def FailOracle : Type := Nat → Option String

/-- The always-succeeding remote. -/
def noFail : FailOracle := fun _ => none

/-- Perform one remote call: record it in the trace and consult the oracle at
the call's position. -/
def callRemote (fail : FailOracle) (op : RemoteOp) (w : World) : Option String × World :=
  (fail w.trace.length, { w with trace := w.trace ++ [op] })

/-- Perform `client.create_issue`: on success the target assigns the next
sequential issue number (`created_issue["number"]`). -/
def callCreateIssue (fail : FailOracle) (org repo title body : String) (w : World) :
    Option String × Nat × World :=
  match callRemote fail (.createIssue org repo title body) w with
  | (none, w1) =>
    (none, w1.nextIssueNumber, { w1 with nextIssueNumber := w1.nextIssueNumber + 1 })
  | (some msg, w1) => (some msg, 0, w1)

def wMarkIssueCompleted (w : World) (repo : String) (n : Nat) : World :=
  { w with ckpt := mark_issue_completed w.ckpt repo n,
           ckptLog := w.ckptLog ++ [.markIssueDone repo n] }

def wUpdateCommentProgress (w : World) (repo : String) (n v : Nat) : World :=
  { w with ckpt := update_comment_progress w.ckpt repo n v,
           ckptLog := w.ckptLog ++ [.setCursor repo n v] }

def wMarkContentCompleted (w : World) (repo : String) : World :=
  { w with ckpt := mark_content_completed w.ckpt repo,
           ckptLog := w.ckptLog ++ [.markContentDone repo] }

def wMarkIssuesCompleted (w : World) (repo : String) : World :=
  { w with ckpt := mark_issues_completed w.ckpt repo,
           ckptLog := w.ckptLog ++ [.markIssuesDone repo] }

/-- `GitHubMigrator._format_issue_body`; Python string truthiness makes both
a missing/null body and the empty string fall back to the placeholder
sentence. -/
def format_issue_body (cfg : Config) (issue : Issue) (repo : String) : String :=
  let original := issue.body.getD ""
  let author := issue.user.getD "unknown"
  let created := issue.created_at.getD "unknown"
  (if original.isEmpty then "*No description provided*" else original) ++
    "\n\n---\n*Originally created by @" ++ author ++ " on " ++ created ++ "*\n" ++
    "*Migrated from " ++ cfg.source_org ++ "/" ++ repo ++ "*"

/-- `GitHubMigrator._format_comment_body`. -/
def format_comment_body (cfg : Config) (comment : Comment) (repo : String) : String :=
  let original := comment.body.getD ""
  let author := comment.user.getD "unknown"
  let created := comment.created_at.getD "unknown"
  (if original.isEmpty then "*No comment text*" else original) ++
    "\n\n---\n*Originally posted by @" ++ author ++ " on " ++ created ++ "*\n" ++
    "*Migrated from " ++ cfg.source_org ++ "/" ++ repo ++ "*"

/-- The loop of `GitHubMigrator.migrate_comments`: `i` is the enumerate
index, `done` the cursor read once at entry.  Rate-limiter interaction only
suspends the single-threaded run and touches neither the checkpoint nor the
remote, so it has no footprint in this state-passing embedding. -/
def migrate_comments_loop (fail : FailOracle) (cfg : Config) (repo : String)
    (srcNum tgtNum done : Nat) : List Comment → Nat → World → Bool × World
  | [], _, w => (true, w)
  | cm :: rest, i, w =>
    if i < done then migrate_comments_loop fail cfg repo srcNum tgtNum done rest (i + 1) w
    else
      match callRemote fail
          (.createComment cfg.target_org repo tgtNum (format_comment_body cfg cm repo)) w with
      | (some _, w1) => (false, w1)
      | (none, w1) =>
        migrate_comments_loop fail cfg repo srcNum tgtNum done rest (i + 1)
          (wUpdateCommentProgress w1 repo srcNum (i + 1))

/-- `GitHubMigrator.migrate_comments`. -/
def migrate_comments (fail : FailOracle) (cfg : Config) (repo : String)
    (srcNum tgtNum : Nat) (comments : List Comment) (w : World) : Bool × World :=
  migrate_comments_loop fail cfg repo srcNum tgtNum
    (get_comment_progress w.ckpt repo srcNum) comments 0 w

/-- The comment-handling block of `_migrate_single_issue` (lines 192-207): a
bare positive count triggers a fetch whose failure is tolerated (log and
continue without comments); a materialized non-empty list is replayed
directly.  `sourceComments` is what the source listing returns on a
successful fetch. -/
def handle_comments (fail : FailOracle) (cfg : Config) (repo : String)
    (srcNum tgtNum : Nat) (cf : CommentsField) (sourceComments : List Comment)
    (w : World) : Bool × World :=
  match cf with
  | .count n =>
    if 0 < n then
      match callRemote fail (.getComments cfg.source_org repo srcNum) w with
      | (some _, w1) => (true, w1)
      | (none, w1) =>
        if sourceComments.isEmpty then (true, w1)
        else migrate_comments fail cfg repo srcNum tgtNum sourceComments w1
    else (true, w)
  | .objs cs =>
    if 0 < cs.length then migrate_comments fail cfg repo srcNum tgtNum cs w
    else (true, w)

/-- `GitHubMigrator._migrate_single_issue`:  create, replay comments, close
when the source issue is closed, and only then mark the issue completed; any
`GitHubAPIError` other than the tolerated comment fetch returns failure. -/
def migrate_single_issue (fail : FailOracle) (cfg : Config) (repo : String)
    (issue : Issue) (issueNumber : Nat) (sourceComments : Nat → List Comment)
    (w : World) : Bool × World :=
  match callCreateIssue fail cfg.target_org repo issue.title
      (format_issue_body cfg issue repo) w with
  | (some _, _, w1) => (false, w1)
  | (none, tgtNum, w1) =>
    match handle_comments fail cfg repo issueNumber tgtNum issue.comments
        (sourceComments issueNumber) w1 with
    | (false, w2) => (false, w2)
    | (true, w2) =>
      if issue.state = "closed" then
        match callRemote fail (.closeIssue cfg.target_org repo tgtNum) w2 with
        | (some _, w3) => (false, w3)
        | (none, w3) => (true, wMarkIssueCompleted w3 repo issueNumber)
      else (true, wMarkIssueCompleted w2 repo issueNumber)

def placeholder_title (n : Nat) : String := "[PLACEHOLDER] Issue #" ++ toString n

def placeholder_body (cfg : Config) (repo : String) (n : Nat) : String :=
  "This is a placeholder for missing issue #" ++ toString n ++ " from " ++
    cfg.source_org ++ "/" ++ repo ++ ".\n\n" ++
    "The original issue may have been deleted, converted to a pull request, or never existed.\n\n" ++
    "---\n*Created during migration to maintain issue numbering*"

/-- `GitHubMigrator._create_placeholder_issue`: create a placeholder for a
missing number, immediately close it, and mark the number done. -/
def create_placeholder_issue (fail : FailOracle) (cfg : Config) (repo : String)
    (n : Nat) (w : World) : Bool × World :=
  match callCreateIssue fail cfg.target_org repo (placeholder_title n)
      (placeholder_body cfg repo n) w with
  | (some _, _, w1) => (false, w1)
  | (none, tgtNum, w1) =>
    match callRemote fail (.closeIssue cfg.target_org repo tgtNum) w1 with
    | (some _, w2) => (false, w2)
    | (none, w2) => (true, wMarkIssueCompleted w2 repo n)

/-- Python `min` over a list of ints (callers only use it on nonempty
lists; `migrate_issues` returns before computing it when the list is empty). -/
def listMinNat : List Nat → Nat
  | [] => 0
  | x :: xs => xs.foldl Nat.min x

/-- Python `max` over a list of ints (same caveat as `listMinNat`). -/
def listMaxNat : List Nat → Nat
  | [] => 0
  | x :: xs => xs.foldl Nat.max x

/-- The dict comprehension `{issue["number"]: issue for issue in issues}`: a
later issue with the same number overrides an earlier one. -/
def issues_by_number (issues : List Issue) (n : Nat) : Option Issue :=
  issues.reverse.find? (fun i => i.number == n)

def migrate_issues_loop (fail : FailOracle) (cfg : Config) (repo : String)
    (byNum : Nat → Option Issue) (sourceComments : Nat → List Comment) :
    List Nat → World → Bool × World
  | [], w => (true, w)
  | n :: ns, w =>
    if is_issue_completed w.ckpt repo n then
      migrate_issues_loop fail cfg repo byNum sourceComments ns w
    else
      match byNum n with
      | some issue =>
        match migrate_single_issue fail cfg repo issue n sourceComments w with
        | (true, w1) => migrate_issues_loop fail cfg repo byNum sourceComments ns w1
        | (false, w1) => (false, w1)
      | none =>
        match create_placeholder_issue fail cfg repo n w with
        | (true, w1) => migrate_issues_loop fail cfg repo byNum sourceComments ns w1
        | (false, w1) => (false, w1)

/-- `GitHubMigrator.migrate_issues`: empty input returns success at once;
otherwise iterate every integer from the minimum to the maximum source issue
number in ascending order, skipping numbers already done, replaying a real
issue when one exists and creating a closed placeholder otherwise. -/
def migrate_issues (fail : FailOracle) (cfg : Config) (repo : String)
    (issues : List Issue) (sourceComments : Nat → List Comment) (w : World) :
    Bool × World :=
  if issues.isEmpty then (true, w)
  else
    let nums := issues.map (fun i => i.number)
    let lo := listMinNat nums
    let hi := listMaxNat nums
    migrate_issues_loop fail cfg repo (issues_by_number issues) sourceComments
      (List.range' lo (hi + 1 - lo)) w

/-- Helper for substring containment: `needle` starts `hay`. -/
def charsStart : List Char → List Char → Bool
  | [], _ => true
  | _ :: _, [] => false
  | a :: as, b :: bs => a = b && charsStart as bs

/-- Helper for substring containment: `needle` occurs somewhere in `hay`. -/
def charsSub (needle : List Char) : List Char → Bool
  | [] => needle.isEmpty
  | c :: rest => charsStart needle (c :: rest) || charsSub needle rest

/-- Python `needle in hay` on strings (substring containment), used by the
`except` clause of the repository-creation call. -/
def strContains (hay needle : String) : Bool :=
  charsSub needle.toList hay.toList

/-- Stable insertion, modelling Python `sorted(issues, key=lambda x:
x["number"])` together with `sort_by_number` (Python's sort is stable and
ascending): an element is placed after every element with a
smaller-or-equal key. -/
def insert_by_number (i : Issue) : List Issue → List Issue
  | [] => [i]
  | j :: rest =>
    if j.number ≤ i.number then j :: insert_by_number i rest else i :: j :: rest

/-- The ascending stable sort `GitHubClient.get_issues` applies to the
listing before returning it. -/
def sort_by_number (l : List Issue) : List Issue :=
  l.foldl (fun acc i => insert_by_number i acc) []

/-- Lines 73-74 / 97-99 of `migrate_repository`: compute `content_needed`
and `issues_needed`.  Python's short-circuit `and` skips the content query
entirely when content migration is disabled; each executed query may write
the read-repaired document back, so the resulting document is returned. -/
def repoNeeds (cfg : Config) (s : MigState) (repo : String) : Bool × Bool × MigState :=
  if cfg.migrate_content then
    let p := is_content_completed s repo
    let q := is_issues_completed p.2 repo
    (!p.1, !q.1, q.2)
  else
    let q := is_issues_completed s repo
    (false, !q.1, q.2)

/-- Lines 101-113 of `migrate_repository`: when content migration is
needed, attempt the external transfer (recorded in the trace) and mark
content done only on success; a failed transfer fails the repository.
`content_ok` is the boolean outcome `migrate_repository_content` reports
(it never raises). -/
def content_phase (content_ok : Bool) (repo : String)
    (needed : Bool) (w : World) : Bool × World :=
  if needed then
    let w2 : World := { w with trace := w.trace ++ [.contentTransfer repo] }
    if content_ok then (true, wMarkContentCompleted w2 repo) else (false, w2)
  else (true, w)

/-- Lines 115-128 of `migrate_repository`: when issue migration is needed,
fetch the source issues (a `GitHubAPIError` here aborts the repository),
replay them, and mark the issue set done only when the replay succeeds.
`sourceIssues` is what a successful listing returns; the client sorts it
ascending by number before the orchestrator sees it. -/
def issues_phase (fail : FailOracle) (cfg : Config) (sourceIssues : List Issue)
    (sourceComments : Nat → List Comment) (repo : String) (needed : Bool)
    (w : World) : Bool × World :=
  if needed then
    match callRemote fail (.getIssuesList cfg.source_org repo) w with
    | (some _, w3) => (false, w3)
    | (none, w3) =>
      match migrate_issues fail cfg repo (sort_by_number sourceIssues) sourceComments w3 with
      | (true, w4) => (true, wMarkIssuesCompleted w4 repo)
      | (false, w4) => (false, w4)
  else (true, w)

/-- Lines 97-131 of `GitHubMigrator.migrate_repository`: everything after
the repository-creation call — recompute the needs, then the content phase,
then the issue phase. -/
def migrate_repository_rest (fail : FailOracle) (cfg : Config) (content_ok : Bool)
    (sourceIssues : List Issue) (sourceComments : Nat → List Comment)
    (repo : String) (w : World) : Bool × World :=
  let t := repoNeeds cfg w.ckpt repo
  match content_phase content_ok repo t.1 { w with ckpt := t.2.2 } with
  | (false, w2) => (false, w2)
  | (true, w2) => issues_phase fail cfg sourceIssues sourceComments repo t.2.1 w2

/-- `GitHubMigrator.migrate_repository` (lines 68-135): the early-skip
check, the creation call with the 422-class "already exists" conflict
swallowed, then the rest; a creation error with any other message is
re-raised and caught at the repository boundary, returning failure. -/
def migrate_repository (fail : FailOracle) (cfg : Config) (content_ok : Bool)
    (sourceIssues : List Issue) (sourceComments : Nat → List Comment)
    (repo : String) (w : World) : Bool × World :=
  let t := repoNeeds cfg w.ckpt repo
  let w1 : World := { w with ckpt := t.2.2 }
  if !t.1 && !t.2.1 then (true, w1)
  else
    match callRemote fail (.createRepo cfg.target_org repo) w1 with
    | (none, w2) =>
      migrate_repository_rest fail cfg content_ok sourceIssues sourceComments repo w2
    | (some msg, w2) =>
      if strContains msg "Repository creation failed" || strContains msg "422" then
        migrate_repository_rest fail cfg content_ok sourceIssues sourceComments repo w2
      else (false, w2)

/-- What one checkpoint mutation of repository `repo` (or any chain of them)
preserves: the completion observations of every repository, and
populated-ness of `repo`'s record. -/
def CkptStep (repo : String) (s s' : MigState) : Prop :=
  (∀ r', contentDoneVal s' r' = contentDoneVal s r') ∧
  (∀ r', issuesDoneVal s' r' = issuesDoneVal s r') ∧
  (populatedAt s repo = true → populatedAt s' repo = true)



/-- The repository's terminal state as `migrate_repository` re-derives it on
re-entry: record present with every field, issue set flagged complete, and
(when content migration is enabled) content flagged complete. -/
def RepoReady (cfg : Config) (s : MigState) (repo : String) : Prop :=
  populatedAt s repo = true ∧ issuesDoneVal s repo = true ∧
  (cfg.migrate_content = true → contentDoneVal s repo = true)

/-- The cursor values persisted (in order) for issue `n` of repository
`repo` during a run, extracted from the checkpoint-mutation log. -/
def cursorWrites (log : List CkptOp) (repo : String) (n : Nat) : List Nat :=
  log.filterMap (fun e => match e with
    | CkptOp.setCursor r m v => if r = repo ∧ m = n then some v else none
    | _ => none)

def sampleCfg : Config := ⟨"src-org", "dst-org", true⟩

def cfgNoContent : Config := ⟨"src-org", "dst-org", false⟩

def sampleOpenIssue (n : Nat) (t : String) : Issue :=
  ⟨n, t, some "body", "open", some "alice", some "2020-01-01", CommentsField.objs []⟩

def sampleClosedIssue : Issue :=
  ⟨1, "Bug", some "body", "closed", some "alice", some "2020-01-01",
    CommentsField.objs [⟨some "first", some "bob", some "2020-01-02"⟩]⟩

def countIssue : Issue :=
  ⟨1, "Bug", some "body", "open", some "alice", some "2020-01-01", CommentsField.count 2⟩

def issues136 : List Issue :=
  [sampleOpenIssue 1 "Issue 1", sampleOpenIssue 3 "Issue 3", sampleOpenIssue 6 "Issue 6"]

def emptyWorld : World := ⟨⟨[]⟩, [], [], 1⟩

def noComments : Nat → List Comment := fun _ => []

def failOn (k0 : Nat) (msg : String) : FailOracle :=
  fun k => if k = k0 then some msg else none

def createdIssueTitles (trace : List RemoteOp) : List String :=
  trace.filterMap (fun op => match op with
    | RemoteOp.createIssue _ _ t _ => some t
    | _ => none)

def legacyState : MigState :=
  ⟨[("legacy-repo", ⟨none, none, some [(1, ⟨some true, none⟩)]⟩)]⟩

theorem alist_get_set_self {κ α : Type} [DecidableEq κ] (l : List (κ × α)) (k : κ) (v : α) :
    alist_get (alist_set l k v) k = some v := by
  induction l with
  | nil => simp [alist_get, alist_set]
  | cons p rest ih =>
    by_cases h : p.1 = k <;> simp [alist_get, alist_set, h, ih]

theorem alist_get_set_ne {κ α : Type} [DecidableEq κ] (l : List (κ × α)) (k k' : κ) (v : α)
    (hne : k' ≠ k) : alist_get (alist_set l k v) k' = alist_get l k' := by
  have hne' : k ≠ k' := Ne.symm hne
  induction l with
  | nil => simp [alist_get, alist_set, hne']
  | cons p rest ih =>
    by_cases h : p.1 = k
    · simp [alist_get, alist_set, h, hne']
    · by_cases h2 : p.1 = k' <;> simp [alist_get, alist_set, h, h2, ih, hne]

theorem alist_set_eq_of_get {κ α : Type} [DecidableEq κ] (l : List (κ × α)) (k : κ) (v : α)
    (h : alist_get l k = some v) : alist_set l k v = l := by
  induction l with
  | nil => simp [alist_get] at h
  | cons p rest ih =>
    by_cases hk : p.1 = k
    · simp [alist_get, hk] at h
      simp [alist_set, hk, ← h]
      exact Prod.ext hk.symm rfl
    · simp [alist_get, hk] at h
      simp [alist_set, hk, ih h]

theorem repair_repo_populated (rd : RepoData) : populatedB (repair_repo rd) = true := by
  cases rd with
  | mk c i l =>
    cases c <;> cases i <;> cases l <;> simp [repair_repo, populatedB]

theorem repair_repo_of_populated (rd : RepoData) (h : populatedB rd = true) :
    repair_repo rd = rd := by
  cases rd with
  | mk c i l =>
    cases c <;> cases i <;> cases l <;> simp_all [populatedB, repair_repo]

theorem repair_repo_content (rd : RepoData) :
    (repair_repo rd).content_completed = some (rd.content_completed.getD false) := by
  cases rd with
  | mk c i l =>
    cases c <;> cases i <;> cases l <;> simp [repair_repo]

theorem repair_repo_issues_flag (rd : RepoData) :
    (repair_repo rd).issues_completed =
      some (match rd.issues_completed with
            | some b => b
            | none => infer_issues_completed (rd.issues.getD [])) := by
  cases rd with
  | mk c i l =>
    cases c <;> cases i <;> cases l <;> simp [repair_repo]

theorem repair_repo_issues (rd : RepoData) :
    (repair_repo rd).issues = some (rd.issues.getD []) := by
  cases rd with
  | mk c i l =>
    cases c <;> cases i <;> cases l <;> simp [repair_repo]

theorem ensure_get_self (s : MigState) (repo : String) :
    alist_get (ensure_repo_exists s repo).repositories repo =
      some (match alist_get s.repositories repo with
            | none => new_repo
            | some rd => repair_repo rd) := by
  unfold ensure_repo_exists
  cases h : alist_get s.repositories repo <;> simp [h, alist_get_set_self]

theorem ensure_get_ne (s : MigState) (repo r' : String) (h : r' ≠ repo) :
    alist_get (ensure_repo_exists s repo).repositories r' = alist_get s.repositories r' := by
  unfold ensure_repo_exists
  cases hg : alist_get s.repositories repo <;> simp [alist_get_set_ne _ _ _ _ h]

theorem ensure_of_populated (s : MigState) (repo : String) (rd : RepoData)
    (hget : alist_get s.repositories repo = some rd) (hp : populatedB rd = true) :
    ensure_repo_exists s repo = s := by
  unfold ensure_repo_exists
  rw [hget]
  show MigState.mk (alist_set s.repositories repo (repair_repo rd)) = s
  rw [repair_repo_of_populated rd hp, alist_set_eq_of_get _ _ _ hget]

theorem is_content_completed_fst (s : MigState) (repo : String) :
    (is_content_completed s repo).1 = contentDoneVal s repo := by
  unfold is_content_completed contentDoneVal
  cases h : alist_get s.repositories repo with
  | none => simp
  | some rd => simp [ensure_get_self, h, repair_repo_content]

theorem is_issues_completed_fst (s : MigState) (repo : String) :
    (is_issues_completed s repo).1 = issuesDoneVal s repo := by
  unfold is_issues_completed issuesDoneVal
  cases h : alist_get s.repositories repo with
  | none => simp
  | some rd => simp [ensure_get_self, h, repair_repo_issues_flag]

theorem contentDoneVal_ensure (s : MigState) (repo r' : String) :
    contentDoneVal (ensure_repo_exists s repo) r' = contentDoneVal s r' := by
  by_cases h : r' = repo
  · subst h
    unfold contentDoneVal
    rw [ensure_get_self]
    cases hg : alist_get s.repositories r' with
    | none => simp [new_repo]
    | some rd => simp [repair_repo_content]
  · unfold contentDoneVal
    rw [ensure_get_ne s repo r' h]

theorem issuesDoneVal_ensure (s : MigState) (repo r' : String) :
    issuesDoneVal (ensure_repo_exists s repo) r' = issuesDoneVal s r' := by
  by_cases h : r' = repo
  · subst h
    unfold issuesDoneVal
    rw [ensure_get_self]
    cases hg : alist_get s.repositories r' with
    | none => simp [new_repo, infer_issues_completed]
    | some rd => simp [repair_repo_issues_flag]
  · unfold issuesDoneVal
    rw [ensure_get_ne s repo r' h]

theorem is_issue_completed_ensure (s : MigState) (repo r' : String) (n : Nat) :
    is_issue_completed (ensure_repo_exists s repo) r' n = is_issue_completed s r' n := by
  by_cases h : r' = repo
  · subst h
    unfold is_issue_completed
    rw [ensure_get_self]
    cases hg : alist_get s.repositories r' with
    | none => simp [new_repo, alist_get]
    | some rd => simp [repair_repo_issues]
  · unfold is_issue_completed
    rw [ensure_get_ne s repo r' h]

theorem get_comment_progress_ensure (s : MigState) (repo r' : String) (n : Nat) :
    get_comment_progress (ensure_repo_exists s repo) r' n = get_comment_progress s r' n := by
  by_cases h : r' = repo
  · subst h
    unfold get_comment_progress
    rw [ensure_get_self]
    cases hg : alist_get s.repositories r' with
    | none => simp [new_repo, alist_get]
    | some rd => simp [repair_repo_issues]
  · unfold get_comment_progress
    rw [ensure_get_ne s repo r' h]

theorem is_content_completed_snd (s : MigState) (repo : String) :
    (is_content_completed s repo).2 =
      match alist_get s.repositories repo with
      | none => s
      | some _ => ensure_repo_exists s repo := by
  unfold is_content_completed
  cases h : alist_get s.repositories repo <;> simp

theorem is_issues_completed_snd (s : MigState) (repo : String) :
    (is_issues_completed s repo).2 =
      match alist_get s.repositories repo with
      | none => s
      | some _ => ensure_repo_exists s repo := by
  unfold is_issues_completed
  cases h : alist_get s.repositories repo <;> simp

theorem populatedAt_ensure_self (s : MigState) (repo : String) :
    populatedAt (ensure_repo_exists s repo) repo = true := by
  unfold populatedAt
  rw [ensure_get_self]
  cases alist_get s.repositories repo with
  | none => simp [new_repo, populatedB]
  | some rd => simp [repair_repo_populated]

theorem populatedAt_ensure_ne (s : MigState) (repo r' : String) (h : r' ≠ repo) :
    populatedAt (ensure_repo_exists s repo) r' = populatedAt s r' := by
  unfold populatedAt
  rw [ensure_get_ne s repo r' h]

theorem ensure_issue_spec (s : MigState) (repo : String) (n : Nat) :
    ∃ rd, alist_get (ensure_repo_exists s repo).repositories repo = some rd ∧
      ensure_issue_exists s repo n =
        (match alist_get (rd.issues.getD []) n with
         | some _ => ensure_repo_exists s repo
         | none => ⟨alist_set (ensure_repo_exists s repo).repositories repo
             { rd with issues := some (alist_set (rd.issues.getD []) n ⟨some false, some 0⟩) }⟩) := by
  refine ⟨_, ensure_get_self s repo, ?_⟩
  simp only [ensure_issue_exists]
  rw [ensure_get_self]

theorem contentDoneVal_ensure_issue (s : MigState) (repo : String) (n : Nat) (r' : String) :
    contentDoneVal (ensure_issue_exists s repo n) r' = contentDoneVal s r' := by
  obtain ⟨rd, hg, heq⟩ := ensure_issue_spec s repo n
  rw [heq]
  cases alist_get (rd.issues.getD []) n with
  | some _ => exact contentDoneVal_ensure s repo r'
  | none =>
    by_cases h : r' = repo
    · subst h
      unfold contentDoneVal
      rw [alist_get_set_self]
      have h2 := contentDoneVal_ensure s r' r'
      unfold contentDoneVal at h2
      rw [hg] at h2
      exact h2
    · unfold contentDoneVal
      rw [alist_get_set_ne _ _ _ _ h]
      have h2 := contentDoneVal_ensure s repo r'
      unfold contentDoneVal at h2
      rw [← h2]

theorem issuesDoneVal_ensure_issue (s : MigState) (repo : String) (n : Nat) (r' : String) :
    issuesDoneVal (ensure_issue_exists s repo n) r' = issuesDoneVal s r' := by
  obtain ⟨rd, hg, heq⟩ := ensure_issue_spec s repo n
  have hpop : populatedB rd = true := by
    have := populatedAt_ensure_self s repo
    unfold populatedAt at this
    rw [hg] at this
    exact this
  have hflag : ∃ b, rd.issues_completed = some b := by
    unfold populatedB at hpop
    simp only [Bool.and_eq_true, Option.isSome_iff_exists] at hpop
    exact hpop.1.2
  obtain ⟨b, hb⟩ := hflag
  rw [heq]
  cases alist_get (rd.issues.getD []) n with
  | some _ => exact issuesDoneVal_ensure s repo r'
  | none =>
    by_cases h : r' = repo
    · subst h
      unfold issuesDoneVal
      rw [alist_get_set_self]
      have h2 := issuesDoneVal_ensure s r' r'
      unfold issuesDoneVal at h2
      rw [hg] at h2
      simp only [hb] at h2 ⊢
      exact h2
    · unfold issuesDoneVal
      rw [alist_get_set_ne _ _ _ _ h]
      have h2 := issuesDoneVal_ensure s repo r'
      unfold issuesDoneVal at h2
      rw [← h2]

theorem is_issue_completed_ensure_issue (s : MigState) (repo : String) (n : Nat)
    (r' : String) (n' : Nat) :
    is_issue_completed (ensure_issue_exists s repo n) r' n' = is_issue_completed s r' n' := by
  obtain ⟨rd, hg, heq⟩ := ensure_issue_spec s repo n
  rw [heq]
  cases hi : alist_get (rd.issues.getD []) n with
  | some _ => exact is_issue_completed_ensure s repo r' n'
  | none =>
    have hpre : ∀ m, is_issue_completed (ensure_repo_exists s repo) repo m =
        (match alist_get (rd.issues.getD []) m with
         | none => false
         | some idata => idata.completed.getD false) := by
      intro m
      simp only [is_issue_completed, hg]
    by_cases h : r' = repo
    · subst h
      by_cases hn : n' = n
      · subst hn
        rw [← is_issue_completed_ensure s r' r' n', hpre n', hi]
        simp [is_issue_completed, alist_get_set_self]
      · rw [← is_issue_completed_ensure s r' r' n', hpre n']
        simp only [is_issue_completed, alist_get_set_self, Option.getD_some]
        rw [alist_get_set_ne _ _ _ _ hn]
    · have step : is_issue_completed
          (⟨alist_set (ensure_repo_exists s repo).repositories repo
            { rd with issues := some (alist_set (rd.issues.getD []) n
                ⟨some false, some 0⟩) }⟩ : MigState) r' n' =
          is_issue_completed (ensure_repo_exists s repo) r' n' := by
        simp only [is_issue_completed]
        rw [alist_get_set_ne _ _ _ _ h]
      rw [step, is_issue_completed_ensure s repo r' n']

theorem populatedAt_ensure_issue_self (s : MigState) (repo : String) (n : Nat) :
    populatedAt (ensure_issue_exists s repo n) repo = true := by
  obtain ⟨rd, hg, heq⟩ := ensure_issue_spec s repo n
  have hpop : populatedB rd = true := by
    have := populatedAt_ensure_self s repo
    unfold populatedAt at this
    rw [hg] at this
    exact this
  rw [heq]
  cases alist_get (rd.issues.getD []) n with
  | some _ => exact populatedAt_ensure_self s repo
  | none =>
    unfold populatedAt
    rw [alist_get_set_self]
    unfold populatedB at hpop ⊢
    simp only [Bool.and_eq_true] at hpop ⊢
    exact ⟨⟨hpop.1.1, hpop.1.2⟩, by simp⟩

theorem populatedAt_ensure_issue_ne (s : MigState) (repo r' : String) (n : Nat)
    (h : r' ≠ repo) :
    populatedAt (ensure_issue_exists s repo n) r' = populatedAt s r' := by
  obtain ⟨rd, hg, heq⟩ := ensure_issue_spec s repo n
  rw [heq]
  cases alist_get (rd.issues.getD []) n with
  | some _ => exact populatedAt_ensure_ne s repo r' h
  | none =>
    unfold populatedAt
    rw [alist_get_set_ne _ _ _ _ h]
    have h2 := populatedAt_ensure_ne s repo r' h
    unfold populatedAt at h2
    rw [← h2]

theorem get_comment_progress_ensure_issue (s : MigState) (repo : String) (n : Nat)
    (r' : String) (n' : Nat) :
    get_comment_progress (ensure_issue_exists s repo n) r' n' =
      get_comment_progress s r' n' := by
  obtain ⟨rd, hg, heq⟩ := ensure_issue_spec s repo n
  rw [heq]
  cases hi : alist_get (rd.issues.getD []) n with
  | some _ => exact get_comment_progress_ensure s repo r' n'
  | none =>
    have hpre : ∀ m, get_comment_progress (ensure_repo_exists s repo) repo m =
        (match alist_get (rd.issues.getD []) m with
         | none => 0
         | some idata => idata.comments_completed.getD 0) := by
      intro m
      simp only [get_comment_progress, hg]
    by_cases h : r' = repo
    · subst h
      by_cases hn : n' = n
      · subst hn
        rw [← get_comment_progress_ensure s r' r' n', hpre n', hi]
        simp [get_comment_progress, alist_get_set_self]
      · rw [← get_comment_progress_ensure s r' r' n', hpre n']
        simp only [get_comment_progress, alist_get_set_self, Option.getD_some]
        rw [alist_get_set_ne _ _ _ _ hn]
    · have step : get_comment_progress
          (⟨alist_set (ensure_repo_exists s repo).repositories repo
            { rd with issues := some (alist_set (rd.issues.getD []) n
                ⟨some false, some 0⟩) }⟩ : MigState) r' n' =
          get_comment_progress (ensure_repo_exists s repo) r' n' := by
        simp only [get_comment_progress]
        rw [alist_get_set_ne _ _ _ _ h]
      rw [step, get_comment_progress_ensure s repo r' n']

/-- After `_ensure_issue_exists` the repository record is present and
populated, the issue record is present, and its fields agree with the
pure observations of the original document. -/
theorem ensure_issue_ready (s : MigState) (repo : String) (n : Nat) :
    ∃ rd idata, alist_get (ensure_issue_exists s repo n).repositories repo = some rd ∧
      alist_get (rd.issues.getD []) n = some idata ∧ populatedB rd = true ∧
      idata.completed.getD false = is_issue_completed s repo n ∧
      idata.comments_completed.getD 0 = get_comment_progress s repo n := by
  obtain ⟨rdE, hg, heq⟩ := ensure_issue_spec s repo n
  have hpopE : populatedB rdE = true := by
    have := populatedAt_ensure_self s repo
    unfold populatedAt at this
    rw [hg] at this
    exact this
  cases hi : alist_get (rdE.issues.getD []) n with
  | some idata =>
    refine ⟨rdE, idata, ?_, hi, hpopE, ?_, ?_⟩
    · rw [heq, hi]
      exact hg
    · have h2 := is_issue_completed_ensure s repo repo n
      simp only [is_issue_completed, hg, hi] at h2
      exact h2
    · have h2 := get_comment_progress_ensure s repo repo n
      simp only [get_comment_progress, hg, hi] at h2
      exact h2
  | none =>
    refine ⟨{ rdE with issues := some (alist_set (rdE.issues.getD []) n
        ⟨some false, some 0⟩) }, ⟨some false, some 0⟩, ?_, ?_, ?_, ?_, ?_⟩
    · rw [heq, hi]
      exact alist_get_set_self _ _ _
    · simp only [Option.getD_some]
      exact alist_get_set_self _ _ _
    · unfold populatedB at hpopE ⊢
      simp only [Bool.and_eq_true] at hpopE ⊢
      exact ⟨⟨hpopE.1.1, hpopE.1.2⟩, by simp⟩
    · have h2 := is_issue_completed_ensure s repo repo n
      simp only [is_issue_completed, hg, hi] at h2
      exact h2
    · have h2 := get_comment_progress_ensure s repo repo n
      simp only [get_comment_progress, hg, hi] at h2
      exact h2

theorem mark_issue_spec (s : MigState) (repo : String) (n : Nat) :
    ∃ rd idata, alist_get (ensure_issue_exists s repo n).repositories repo = some rd ∧
      alist_get (rd.issues.getD []) n = some idata ∧ populatedB rd = true ∧
      idata.completed.getD false = is_issue_completed s repo n ∧
      mark_issue_completed s repo n =
        ⟨alist_set (ensure_issue_exists s repo n).repositories repo
          { rd with issues := some (alist_set (rd.issues.getD []) n
              { idata with completed := some true }) }⟩ := by
  obtain ⟨rd, idata, hg, hi, hpop, hdone, _⟩ := ensure_issue_ready s repo n
  refine ⟨rd, idata, hg, hi, hpop, hdone, ?_⟩
  simp only [mark_issue_completed, hg, hi]

theorem update_progress_spec (s : MigState) (repo : String) (n v : Nat) :
    ∃ rd idata, alist_get (ensure_issue_exists s repo n).repositories repo = some rd ∧
      alist_get (rd.issues.getD []) n = some idata ∧ populatedB rd = true ∧
      idata.completed.getD false = is_issue_completed s repo n ∧
      update_comment_progress s repo n v =
        ⟨alist_set (ensure_issue_exists s repo n).repositories repo
          { rd with issues := some (alist_set (rd.issues.getD []) n
              { idata with comments_completed := some v }) }⟩ := by
  obtain ⟨rd, idata, hg, hi, hpop, hdone, _⟩ := ensure_issue_ready s repo n
  refine ⟨rd, idata, hg, hi, hpop, hdone, ?_⟩
  simp only [update_comment_progress, hg, hi]

theorem shape_content (s0 : MigState) (repo : String) (n : Nat) (rd : RepoData)
    (idata' : IssueData) (hg : alist_get s0.repositories repo = some rd) (r' : String) :
    contentDoneVal (⟨alist_set s0.repositories repo
      { rd with issues := some (alist_set (rd.issues.getD []) n idata') }⟩ : MigState) r' =
    contentDoneVal s0 r' := by
  by_cases h : r' = repo
  · subst h
    unfold contentDoneVal
    rw [alist_get_set_self, hg]
  · unfold contentDoneVal
    rw [alist_get_set_ne _ _ _ _ h]

theorem shape_issuesFlag (s0 : MigState) (repo : String) (n : Nat) (rd : RepoData)
    (idata' : IssueData) (hg : alist_get s0.repositories repo = some rd)
    (hpop : populatedB rd = true) (r' : String) :
    issuesDoneVal (⟨alist_set s0.repositories repo
      { rd with issues := some (alist_set (rd.issues.getD []) n idata') }⟩ : MigState) r' =
    issuesDoneVal s0 r' := by
  obtain ⟨b, hb⟩ : ∃ b, rd.issues_completed = some b := by
    unfold populatedB at hpop
    simp only [Bool.and_eq_true, Option.isSome_iff_exists] at hpop
    exact hpop.1.2
  by_cases h : r' = repo
  · subst h
    unfold issuesDoneVal
    rw [alist_get_set_self, hg]
    simp [hb]
  · unfold issuesDoneVal
    rw [alist_get_set_ne _ _ _ _ h]

theorem shape_populated (s0 : MigState) (repo : String) (n : Nat) (rd : RepoData)
    (idata' : IssueData) (hpop : populatedB rd = true) :
    populatedAt (⟨alist_set s0.repositories repo
      { rd with issues := some (alist_set (rd.issues.getD []) n idata') }⟩ : MigState) repo
      = true := by
  unfold populatedAt
  rw [alist_get_set_self]
  unfold populatedB at hpop ⊢
  simp only [Bool.and_eq_true] at hpop ⊢
  exact ⟨⟨hpop.1.1, hpop.1.2⟩, by simp⟩

theorem shape_populated_ne (s0 : MigState) (repo : String) (n : Nat) (rd : RepoData)
    (idata' : IssueData) (r' : String) (h : r' ≠ repo) :
    populatedAt (⟨alist_set s0.repositories repo
      { rd with issues := some (alist_set (rd.issues.getD []) n idata') }⟩ : MigState) r' =
    populatedAt s0 r' := by
  unfold populatedAt
  rw [alist_get_set_ne _ _ _ _ h]

theorem shape_issue_self (s0 : MigState) (repo : String) (n : Nat) (rd : RepoData)
    (idata' : IssueData) :
    is_issue_completed (⟨alist_set s0.repositories repo
      { rd with issues := some (alist_set (rd.issues.getD []) n idata') }⟩ : MigState) repo n =
    idata'.completed.getD false := by
  unfold is_issue_completed
  rw [alist_get_set_self]
  simp [alist_get_set_self]

theorem shape_issue_other (s0 : MigState) (repo : String) (n : Nat) (rd : RepoData)
    (idata' : IssueData) (hg : alist_get s0.repositories repo = some rd)
    (r' : String) (n' : Nat) (h : r' ≠ repo ∨ n' ≠ n) :
    is_issue_completed (⟨alist_set s0.repositories repo
      { rd with issues := some (alist_set (rd.issues.getD []) n idata') }⟩ : MigState) r' n' =
    is_issue_completed s0 r' n' := by
  by_cases hr : r' = repo
  · subst hr
    have hn : n' ≠ n := h.resolve_left (by simp)
    unfold is_issue_completed
    rw [alist_get_set_self, hg]
    simp only [Option.getD_some]
    rw [alist_get_set_ne _ _ _ _ hn]
  · unfold is_issue_completed
    rw [alist_get_set_ne _ _ _ _ hr]

theorem shape_cursor_self (s0 : MigState) (repo : String) (n : Nat) (rd : RepoData)
    (idata' : IssueData) :
    get_comment_progress (⟨alist_set s0.repositories repo
      { rd with issues := some (alist_set (rd.issues.getD []) n idata') }⟩ : MigState) repo n =
    idata'.comments_completed.getD 0 := by
  unfold get_comment_progress
  rw [alist_get_set_self]
  simp [alist_get_set_self]

theorem contentDoneVal_mark_issue (s : MigState) (repo : String) (n : Nat) (r' : String) :
    contentDoneVal (mark_issue_completed s repo n) r' = contentDoneVal s r' := by
  obtain ⟨rd, idata, hg, hi, hpop, hdone, heq⟩ := mark_issue_spec s repo n
  rw [heq, shape_content _ _ _ _ _ hg r', contentDoneVal_ensure_issue]

theorem issuesDoneVal_mark_issue (s : MigState) (repo : String) (n : Nat) (r' : String) :
    issuesDoneVal (mark_issue_completed s repo n) r' = issuesDoneVal s r' := by
  obtain ⟨rd, idata, hg, hi, hpop, hdone, heq⟩ := mark_issue_spec s repo n
  rw [heq, shape_issuesFlag _ _ _ _ _ hg hpop r', issuesDoneVal_ensure_issue]

theorem populatedAt_mark_issue_self (s : MigState) (repo : String) (n : Nat) :
    populatedAt (mark_issue_completed s repo n) repo = true := by
  obtain ⟨rd, idata, hg, hi, hpop, hdone, heq⟩ := mark_issue_spec s repo n
  rw [heq]
  exact shape_populated _ _ _ _ _ hpop

theorem populatedAt_mark_issue_ne (s : MigState) (repo : String) (n : Nat) (r' : String)
    (h : r' ≠ repo) :
    populatedAt (mark_issue_completed s repo n) r' = populatedAt s r' := by
  obtain ⟨rd, idata, hg, hi, hpop, hdone, heq⟩ := mark_issue_spec s repo n
  rw [heq, shape_populated_ne _ _ _ _ _ _ h, populatedAt_ensure_issue_ne _ _ _ _ h]

theorem is_issue_completed_mark_issue_self (s : MigState) (repo : String) (n : Nat) :
    is_issue_completed (mark_issue_completed s repo n) repo n = true := by
  obtain ⟨rd, idata, hg, hi, hpop, hdone, heq⟩ := mark_issue_spec s repo n
  rw [heq, shape_issue_self]
  rfl

theorem is_issue_completed_mark_issue_other (s : MigState) (repo : String) (n : Nat)
    (r' : String) (n' : Nat) (h : r' ≠ repo ∨ n' ≠ n) :
    is_issue_completed (mark_issue_completed s repo n) r' n' =
      is_issue_completed s r' n' := by
  obtain ⟨rd, idata, hg, hi, hpop, hdone, heq⟩ := mark_issue_spec s repo n
  rw [heq, shape_issue_other _ _ _ _ _ hg r' n' h, is_issue_completed_ensure_issue]

theorem contentDoneVal_update (s : MigState) (repo : String) (n v : Nat) (r' : String) :
    contentDoneVal (update_comment_progress s repo n v) r' = contentDoneVal s r' := by
  obtain ⟨rd, idata, hg, hi, hpop, hdone, heq⟩ := update_progress_spec s repo n v
  rw [heq, shape_content _ _ _ _ _ hg r', contentDoneVal_ensure_issue]

theorem issuesDoneVal_update (s : MigState) (repo : String) (n v : Nat) (r' : String) :
    issuesDoneVal (update_comment_progress s repo n v) r' = issuesDoneVal s r' := by
  obtain ⟨rd, idata, hg, hi, hpop, hdone, heq⟩ := update_progress_spec s repo n v
  rw [heq, shape_issuesFlag _ _ _ _ _ hg hpop r', issuesDoneVal_ensure_issue]

theorem populatedAt_update_self (s : MigState) (repo : String) (n v : Nat) :
    populatedAt (update_comment_progress s repo n v) repo = true := by
  obtain ⟨rd, idata, hg, hi, hpop, hdone, heq⟩ := update_progress_spec s repo n v
  rw [heq]
  exact shape_populated _ _ _ _ _ hpop

theorem populatedAt_update_ne (s : MigState) (repo : String) (n v : Nat) (r' : String)
    (h : r' ≠ repo) :
    populatedAt (update_comment_progress s repo n v) r' = populatedAt s r' := by
  obtain ⟨rd, idata, hg, hi, hpop, hdone, heq⟩ := update_progress_spec s repo n v
  rw [heq, shape_populated_ne _ _ _ _ _ _ h, populatedAt_ensure_issue_ne _ _ _ _ h]

theorem is_issue_completed_update (s : MigState) (repo : String) (n v : Nat)
    (r' : String) (n' : Nat) :
    is_issue_completed (update_comment_progress s repo n v) r' n' =
      is_issue_completed s r' n' := by
  obtain ⟨rd, idata, hg, hi, hpop, hdone, heq⟩ := update_progress_spec s repo n v
  by_cases hr : r' = repo
  · subst hr
    by_cases hn : n' = n
    · subst hn
      rw [heq, shape_issue_self]
      exact hdone
    · rw [heq, shape_issue_other _ _ _ _ _ hg r' n' (Or.inr hn),
        is_issue_completed_ensure_issue]
  · rw [heq, shape_issue_other _ _ _ _ _ hg r' n' (Or.inl hr),
      is_issue_completed_ensure_issue]

theorem get_comment_progress_update_self (s : MigState) (repo : String) (n v : Nat) :
    get_comment_progress (update_comment_progress s repo n v) repo n = v := by
  obtain ⟨rd, idata, hg, hi, hpop, hdone, heq⟩ := update_progress_spec s repo n v
  rw [heq, shape_cursor_self]
  rfl

theorem mark_content_spec (s : MigState) (repo : String) :
    ∃ rd, alist_get (ensure_repo_exists s repo).repositories repo = some rd ∧
      populatedB rd = true ∧
      mark_content_completed s repo =
        ⟨alist_set (ensure_repo_exists s repo).repositories repo
          { rd with content_completed := some true }⟩ := by
  refine ⟨_, ensure_get_self s repo, ?_, ?_⟩
  · have h := populatedAt_ensure_self s repo
    unfold populatedAt at h
    rw [ensure_get_self] at h
    exact h
  · simp only [mark_content_completed, ensure_get_self]

theorem mark_issues_spec (s : MigState) (repo : String) :
    ∃ rd, alist_get (ensure_repo_exists s repo).repositories repo = some rd ∧
      populatedB rd = true ∧
      mark_issues_completed s repo =
        ⟨alist_set (ensure_repo_exists s repo).repositories repo
          { rd with issues_completed := some true }⟩ := by
  refine ⟨_, ensure_get_self s repo, ?_, ?_⟩
  · have h := populatedAt_ensure_self s repo
    unfold populatedAt at h
    rw [ensure_get_self] at h
    exact h
  · simp only [mark_issues_completed, ensure_get_self]

theorem contentDoneVal_mark_content_self (s : MigState) (repo : String) :
    contentDoneVal (mark_content_completed s repo) repo = true := by
  obtain ⟨rd, hg, hpop, heq⟩ := mark_content_spec s repo
  rw [heq]
  unfold contentDoneVal
  rw [alist_get_set_self]
  rfl

theorem contentDoneVal_mark_content_ne (s : MigState) (repo r' : String) (h : r' ≠ repo) :
    contentDoneVal (mark_content_completed s repo) r' = contentDoneVal s r' := by
  obtain ⟨rd, hg, hpop, heq⟩ := mark_content_spec s repo
  rw [heq]
  have h2 := contentDoneVal_ensure s repo r'
  unfold contentDoneVal at h2 ⊢
  rw [alist_get_set_ne _ _ _ _ h]
  exact h2

theorem issuesDoneVal_mark_content (s : MigState) (repo : String) (r' : String) :
    issuesDoneVal (mark_content_completed s repo) r' = issuesDoneVal s r' := by
  obtain ⟨rd, hg, hpop, heq⟩ := mark_content_spec s repo
  rw [heq]
  have h2 := issuesDoneVal_ensure s repo r'
  by_cases h : r' = repo
  · subst h
    obtain ⟨b, hb⟩ : ∃ b, rd.issues_completed = some b := by
      unfold populatedB at hpop
      simp only [Bool.and_eq_true, Option.isSome_iff_exists] at hpop
      exact hpop.1.2
    unfold issuesDoneVal at h2 ⊢
    rw [alist_get_set_self]
    rw [hg] at h2
    simp only [hb] at h2 ⊢
    exact h2
  · unfold issuesDoneVal at h2 ⊢
    rw [alist_get_set_ne _ _ _ _ h]
    exact h2

theorem populatedAt_mark_content_self (s : MigState) (repo : String) :
    populatedAt (mark_content_completed s repo) repo = true := by
  obtain ⟨rd, hg, hpop, heq⟩ := mark_content_spec s repo
  rw [heq]
  unfold populatedAt
  rw [alist_get_set_self]
  unfold populatedB at hpop ⊢
  simp only [Bool.and_eq_true] at hpop ⊢
  exact ⟨⟨by simp, hpop.1.2⟩, hpop.2⟩

theorem populatedAt_mark_content_ne (s : MigState) (repo r' : String) (h : r' ≠ repo) :
    populatedAt (mark_content_completed s repo) r' = populatedAt s r' := by
  obtain ⟨rd, hg, hpop, heq⟩ := mark_content_spec s repo
  rw [heq]
  have h2 := populatedAt_ensure_ne s repo r' h
  unfold populatedAt at h2 ⊢
  rw [alist_get_set_ne _ _ _ _ h]
  exact h2

theorem issuesDoneVal_mark_issues_self (s : MigState) (repo : String) :
    issuesDoneVal (mark_issues_completed s repo) repo = true := by
  obtain ⟨rd, hg, hpop, heq⟩ := mark_issues_spec s repo
  rw [heq]
  unfold issuesDoneVal
  rw [alist_get_set_self]

theorem issuesDoneVal_mark_issues_ne (s : MigState) (repo r' : String) (h : r' ≠ repo) :
    issuesDoneVal (mark_issues_completed s repo) r' = issuesDoneVal s r' := by
  obtain ⟨rd, hg, hpop, heq⟩ := mark_issues_spec s repo
  rw [heq]
  have h2 := issuesDoneVal_ensure s repo r'
  unfold issuesDoneVal at h2 ⊢
  rw [alist_get_set_ne _ _ _ _ h]
  exact h2

theorem contentDoneVal_mark_issues (s : MigState) (repo : String) (r' : String) :
    contentDoneVal (mark_issues_completed s repo) r' = contentDoneVal s r' := by
  obtain ⟨rd, hg, hpop, heq⟩ := mark_issues_spec s repo
  rw [heq]
  have h2 := contentDoneVal_ensure s repo r'
  by_cases h : r' = repo
  · subst h
    unfold contentDoneVal at h2 ⊢
    rw [alist_get_set_self]
    rw [hg] at h2
    exact h2
  · unfold contentDoneVal at h2 ⊢
    rw [alist_get_set_ne _ _ _ _ h]
    exact h2

theorem populatedAt_mark_issues_self (s : MigState) (repo : String) :
    populatedAt (mark_issues_completed s repo) repo = true := by
  obtain ⟨rd, hg, hpop, heq⟩ := mark_issues_spec s repo
  rw [heq]
  unfold populatedAt
  rw [alist_get_set_self]
  unfold populatedB at hpop ⊢
  simp only [Bool.and_eq_true] at hpop ⊢
  exact ⟨⟨hpop.1.1, by simp⟩, hpop.2⟩

theorem populatedAt_mark_issues_ne (s : MigState) (repo r' : String) (h : r' ≠ repo) :
    populatedAt (mark_issues_completed s repo) r' = populatedAt s r' := by
  obtain ⟨rd, hg, hpop, heq⟩ := mark_issues_spec s repo
  rw [heq]
  have h2 := populatedAt_ensure_ne s repo r' h
  unfold populatedAt at h2 ⊢
  rw [alist_get_set_ne _ _ _ _ h]
  exact h2

theorem ckptStep_refl (repo : String) (s : MigState) : CkptStep repo s s :=
  ⟨fun _ => rfl, fun _ => rfl, id⟩

theorem ckptStep_trans {repo : String} {s s' s'' : MigState}
    (a : CkptStep repo s s') (b : CkptStep repo s' s'') : CkptStep repo s s'' :=
  ⟨fun r' => (b.1 r').trans (a.1 r'), fun r' => (b.2.1 r').trans (a.2.1 r'),
    fun h => b.2.2 (a.2.2 h)⟩

theorem ckptStep_mark_issue (repo : String) (s : MigState) (n : Nat) :
    CkptStep repo s (mark_issue_completed s repo n) :=
  ⟨fun r' => contentDoneVal_mark_issue s repo n r',
   fun r' => issuesDoneVal_mark_issue s repo n r',
   fun _ => populatedAt_mark_issue_self s repo n⟩

theorem ckptStep_update (repo : String) (s : MigState) (n v : Nat) :
    CkptStep repo s (update_comment_progress s repo n v) :=
  ⟨fun r' => contentDoneVal_update s repo n v r',
   fun r' => issuesDoneVal_update s repo n v r',
   fun _ => populatedAt_update_self s repo n v⟩

theorem ckptStep_comments_loop (fail : FailOracle) (cfg : Config) (repo : String)
    (srcNum tgtNum done : Nat) :
    ∀ (rest : List Comment) (i : Nat) (w : World),
      CkptStep repo w.ckpt
        (migrate_comments_loop fail cfg repo srcNum tgtNum done rest i w).2.ckpt := by
  intro rest
  induction rest with
  | nil => intro i w; exact ckptStep_refl _ _
  | cons cm rest ih =>
    intro i w
    simp only [migrate_comments_loop]
    by_cases h : i < done
    · simp only [h, if_true]
      exact ih (i + 1) w
    · simp only [h, if_false, callRemote]
      cases hf : fail w.trace.length with
      | some msg => exact ckptStep_refl _ _
      | none =>
        exact ckptStep_trans (ckptStep_update repo w.ckpt srcNum (i + 1))
          (ih (i + 1) _)

theorem ckptStep_comments (fail : FailOracle) (cfg : Config) (repo : String)
    (srcNum tgtNum : Nat) (comments : List Comment) (w : World) :
    CkptStep repo w.ckpt
      (migrate_comments fail cfg repo srcNum tgtNum comments w).2.ckpt := by
  simp only [migrate_comments]
  exact ckptStep_comments_loop fail cfg repo srcNum tgtNum _ comments 0 w

theorem ckptStep_handle (fail : FailOracle) (cfg : Config) (repo : String)
    (srcNum tgtNum : Nat) (cf : CommentsField) (sourceComments : List Comment)
    (w : World) :
    CkptStep repo w.ckpt
      (handle_comments fail cfg repo srcNum tgtNum cf sourceComments w).2.ckpt := by
  cases cf with
  | count n =>
    simp only [handle_comments]
    by_cases h : 0 < n
    · simp only [h, if_true, callRemote]
      cases hf : fail w.trace.length with
      | some msg => exact ckptStep_refl _ _
      | none =>
        by_cases he : sourceComments.isEmpty
        · simp only [he, if_true]
          exact ckptStep_refl _ _
        · simp only [he, if_false]
          exact ckptStep_comments fail cfg repo srcNum tgtNum sourceComments _
    · simp only [h, if_false]
      exact ckptStep_refl _ _
  | objs cs =>
    simp only [handle_comments]
    by_cases h : 0 < cs.length
    · simp only [h, if_true]
      exact ckptStep_comments fail cfg repo srcNum tgtNum cs w
    · simp only [h, if_false]
      exact ckptStep_refl _ _

theorem ckptStep_single (fail : FailOracle) (cfg : Config) (repo : String)
    (issue : Issue) (n : Nat) (sourceComments : Nat → List Comment) (w : World) :
    CkptStep repo w.ckpt
      (migrate_single_issue fail cfg repo issue n sourceComments w).2.ckpt := by
  cases hf : fail w.trace.length with
  | some msg =>
    simp [migrate_single_issue, callCreateIssue, callRemote, hf]
    exact ckptStep_refl _ _
  | none =>
    have hstep := ckptStep_handle fail cfg repo n w.nextIssueNumber issue.comments
      (sourceComments n)
      ({ w with trace := w.trace ++ [RemoteOp.createIssue cfg.target_org repo issue.title
          (format_issue_body cfg issue repo)], nextIssueNumber := w.nextIssueNumber + 1 })
    rcases hh : handle_comments fail cfg repo n w.nextIssueNumber issue.comments
        (sourceComments n)
        ({ w with trace := w.trace ++ [RemoteOp.createIssue cfg.target_org repo issue.title
            (format_issue_body cfg issue repo)], nextIssueNumber := w.nextIssueNumber + 1 })
      with ⟨b, w2⟩
    rw [hh] at hstep
    cases b with
    | false =>
      simp [migrate_single_issue, callCreateIssue, callRemote, hf, hh]
      exact hstep
    | true =>
      by_cases hclosed : issue.state = "closed"
      · cases hf2 : fail w2.trace.length with
        | some msg =>
          simp [migrate_single_issue, callCreateIssue, callRemote, hf, hh, hclosed, hf2]
          exact hstep
        | none =>
          simp [migrate_single_issue, callCreateIssue, callRemote, hf, hh, hclosed, hf2]
          exact ckptStep_trans hstep (ckptStep_mark_issue repo w2.ckpt n)
      · simp [migrate_single_issue, callCreateIssue, callRemote, hf, hh, hclosed]
        exact ckptStep_trans hstep (ckptStep_mark_issue repo w2.ckpt n)

theorem ckptStep_placeholder (fail : FailOracle) (cfg : Config) (repo : String)
    (n : Nat) (w : World) :
    CkptStep repo w.ckpt (create_placeholder_issue fail cfg repo n w).2.ckpt := by
  cases hf : fail w.trace.length with
  | some msg =>
    simp [create_placeholder_issue, callCreateIssue, callRemote, hf]
    exact ckptStep_refl _ _
  | none =>
    cases hf2 : fail (w.trace.length + 1) with
    | some msg =>
      simp [create_placeholder_issue, callCreateIssue, callRemote, hf, hf2]
      exact ckptStep_refl _ _
    | none =>
      simp [create_placeholder_issue, callCreateIssue, callRemote, hf, hf2]
      exact ckptStep_mark_issue repo w.ckpt n

theorem ckptStep_issues_loop (fail : FailOracle) (cfg : Config) (repo : String)
    (byNum : Nat → Option Issue) (sourceComments : Nat → List Comment) :
    ∀ (ns : List Nat) (w : World),
      CkptStep repo w.ckpt
        (migrate_issues_loop fail cfg repo byNum sourceComments ns w).2.ckpt := by
  intro ns
  induction ns with
  | nil => intro w; exact ckptStep_refl _ _
  | cons n ns ih =>
    intro w
    by_cases hdone : is_issue_completed w.ckpt repo n = true
    · simp [migrate_issues_loop, hdone]
      exact ih w
    · have hdone' : is_issue_completed w.ckpt repo n = false :=
        Bool.not_eq_true _ |>.mp hdone
      cases hb : byNum n with
      | some issue =>
        have hstep := ckptStep_single fail cfg repo issue n sourceComments w
        rcases hs : migrate_single_issue fail cfg repo issue n sourceComments w
          with ⟨ok, w1⟩
        rw [hs] at hstep
        cases ok with
        | false =>
          simp [migrate_issues_loop, hdone', hb, hs]
          exact hstep
        | true =>
          simp [migrate_issues_loop, hdone', hb, hs]
          exact ckptStep_trans hstep (ih w1)
      | none =>
        have hstep := ckptStep_placeholder fail cfg repo n w
        rcases hs : create_placeholder_issue fail cfg repo n w with ⟨ok, w1⟩
        rw [hs] at hstep
        cases ok with
        | false =>
          simp [migrate_issues_loop, hdone', hb, hs]
          exact hstep
        | true =>
          simp [migrate_issues_loop, hdone', hb, hs]
          exact ckptStep_trans hstep (ih w1)

theorem ckptStep_issues (fail : FailOracle) (cfg : Config) (repo : String)
    (issues : List Issue) (sourceComments : Nat → List Comment) (w : World) :
    CkptStep repo w.ckpt
      (migrate_issues fail cfg repo issues sourceComments w).2.ckpt := by
  simp only [migrate_issues]
  by_cases he : issues.isEmpty
  · simp only [he, if_true]
    exact ckptStep_refl _ _
  · simp only [he, if_false]
    exact ckptStep_issues_loop fail cfg repo _ sourceComments _ w

theorem issuesDoneVal_present {s : MigState} {repo : String}
    (h : issuesDoneVal s repo = true) :
    ∃ rd, alist_get s.repositories repo = some rd := by
  unfold issuesDoneVal at h
  cases hg : alist_get s.repositories repo with
  | none => rw [hg] at h; simp at h
  | some rd => exact ⟨rd, rfl⟩

theorem contentDoneVal_present {s : MigState} {repo : String}
    (h : contentDoneVal s repo = true) :
    ∃ rd, alist_get s.repositories repo = some rd := by
  unfold contentDoneVal at h
  cases hg : alist_get s.repositories repo with
  | none => rw [hg] at h; simp at h
  | some rd => exact ⟨rd, rfl⟩

theorem is_content_of_populated (s : MigState) (repo : String) (rd : RepoData)
    (hget : alist_get s.repositories repo = some rd) (hp : populatedB rd = true) :
    is_content_completed s repo = (rd.content_completed.getD false, s) := by
  have he : ensure_repo_exists s repo = s := ensure_of_populated s repo rd hget hp
  simp only [is_content_completed, hget, he]

theorem is_issues_of_populated (s : MigState) (repo : String) (rd : RepoData)
    (hget : alist_get s.repositories repo = some rd) (hp : populatedB rd = true) :
    is_issues_completed s repo = (rd.issues_completed.getD false, s) := by
  have he : ensure_repo_exists s repo = s := ensure_of_populated s repo rd hget hp
  simp only [is_issues_completed, hget, he]

theorem issuesDoneVal_of_populated (s : MigState) (repo : String) (rd : RepoData)
    (hget : alist_get s.repositories repo = some rd) (hp : populatedB rd = true) :
    issuesDoneVal s repo = rd.issues_completed.getD false := by
  obtain ⟨b, hb⟩ : ∃ b, rd.issues_completed = some b := by
    unfold populatedB at hp
    simp only [Bool.and_eq_true, Option.isSome_iff_exists] at hp
    exact hp.1.2
  unfold issuesDoneVal
  rw [hget]
  simp [hb]

theorem contentDoneVal_eq (s : MigState) (repo : String) (rd : RepoData)
    (hget : alist_get s.repositories repo = some rd) :
    contentDoneVal s repo = rd.content_completed.getD false := by
  unfold contentDoneVal
  rw [hget]

theorem query_snd_obs_content (s : MigState) (repo : String) (r' : String) (n' : Nat) :
    contentDoneVal ((is_content_completed s repo).2) r' = contentDoneVal s r' ∧
    issuesDoneVal ((is_content_completed s repo).2) r' = issuesDoneVal s r' ∧
    is_issue_completed ((is_content_completed s repo).2) r' n' = is_issue_completed s r' n' := by
  rw [is_content_completed_snd]
  cases hg : alist_get s.repositories repo with
  | none => exact ⟨rfl, rfl, rfl⟩
  | some rd =>
    exact ⟨contentDoneVal_ensure s repo r', issuesDoneVal_ensure s repo r',
      is_issue_completed_ensure s repo r' n'⟩

theorem query_snd_obs_issues (s : MigState) (repo : String) (r' : String) (n' : Nat) :
    contentDoneVal ((is_issues_completed s repo).2) r' = contentDoneVal s r' ∧
    issuesDoneVal ((is_issues_completed s repo).2) r' = issuesDoneVal s r' ∧
    is_issue_completed ((is_issues_completed s repo).2) r' n' = is_issue_completed s r' n' := by
  rw [is_issues_completed_snd]
  cases hg : alist_get s.repositories repo with
  | none => exact ⟨rfl, rfl, rfl⟩
  | some rd =>
    exact ⟨contentDoneVal_ensure s repo r', issuesDoneVal_ensure s repo r',
      is_issue_completed_ensure s repo r' n'⟩

/-- The repository-level queries of `repoNeeds` only write read-repaired
structure back: no completion observation of any repository changes. -/
theorem repoNeeds_obs (cfg : Config) (s : MigState) (repo : String)
    (r' : String) (n' : Nat) :
    contentDoneVal (repoNeeds cfg s repo).2.2 r' = contentDoneVal s r' ∧
    issuesDoneVal (repoNeeds cfg s repo).2.2 r' = issuesDoneVal s r' ∧
    is_issue_completed (repoNeeds cfg s repo).2.2 r' n' = is_issue_completed s r' n' := by
  unfold repoNeeds
  cases hmc : cfg.migrate_content with
  | false =>
    simp only [Bool.false_eq_true, if_false]
    exact query_snd_obs_issues s repo r' n'
  | true =>
    simp only [if_true]
    have h1 := query_snd_obs_content s repo r' n'
    have h2 := query_snd_obs_issues ((is_content_completed s repo).2) repo r' n'
    exact ⟨h2.1.trans h1.1, h2.2.1.trans h1.2.1, h2.2.2.trans h1.2.2⟩

/-- When `repoNeeds` reports the issue set done, the resulting document has
the repository present, populated, and flagged issues-complete. -/
theorem repoNeeds_issues_done (cfg : Config) (s : MigState) (repo : String)
    (h : (repoNeeds cfg s repo).2.1 = false) :
    issuesDoneVal (repoNeeds cfg s repo).2.2 repo = true ∧
    populatedAt (repoNeeds cfg s repo).2.2 repo = true := by
  unfold repoNeeds at h ⊢
  cases hmc : cfg.migrate_content with
  | false =>
    rw [hmc] at h
    simp only [Bool.false_eq_true, if_false] at h ⊢
    have hq : (is_issues_completed s repo).1 = true := by
      simp only [Bool.not_eq_eq_eq_not, Bool.not_false] at h
      exact h
    have hval : issuesDoneVal s repo = true := (is_issues_completed_fst s repo) ▸ hq
    obtain ⟨rd, hget⟩ := issuesDoneVal_present hval
    have hsnd := is_issues_completed_snd s repo
    rw [hget] at hsnd
    constructor
    · rw [hsnd, issuesDoneVal_ensure]
      exact hval
    · rw [hsnd]
      exact populatedAt_ensure_self s repo
  | true =>
    rw [hmc] at h
    simp only [if_true] at h ⊢
    have hq : (is_issues_completed (is_content_completed s repo).2 repo).1 = true := by
      simp only [Bool.not_eq_eq_eq_not, Bool.not_false] at h
      exact h
    have hval : issuesDoneVal (is_content_completed s repo).2 repo = true :=
      (is_issues_completed_fst _ repo) ▸ hq
    obtain ⟨rd, hget⟩ := issuesDoneVal_present hval
    have hsnd := is_issues_completed_snd (is_content_completed s repo).2 repo
    rw [hget] at hsnd
    constructor
    · rw [hsnd, issuesDoneVal_ensure]
      exact hval
    · rw [hsnd]
      exact populatedAt_ensure_self _ repo

/-- When content migration is enabled and `repoNeeds` reports the content
done, the resulting document carries the content flag. -/
theorem repoNeeds_content_done (cfg : Config) (s : MigState) (repo : String)
    (hmc : cfg.migrate_content = true) (h : (repoNeeds cfg s repo).1 = false) :
    contentDoneVal (repoNeeds cfg s repo).2.2 repo = true := by
  unfold repoNeeds at h ⊢
  rw [hmc] at h ⊢
  simp only [if_true] at h ⊢
  have hp : (is_content_completed s repo).1 = true := by
    simp only [Bool.not_eq_eq_eq_not, Bool.not_false] at h
    exact h
  have hval : contentDoneVal s repo = true := (is_content_completed_fst s repo) ▸ hp
  have h1 := (query_snd_obs_content s repo repo 0).1
  have h2 := (query_snd_obs_issues (is_content_completed s repo).2 repo repo 0).1
  rw [h2, h1]
  exact hval

/-- On a `RepoReady` document both queries return true without changing the
document, so nothing is needed. -/
theorem ready_repoNeeds (cfg : Config) (s : MigState) (repo : String)
    (h : RepoReady cfg s repo) : repoNeeds cfg s repo = (false, false, s) := by
  obtain ⟨hpop, hiss, hcont⟩ := h
  obtain ⟨rd, hget⟩ : ∃ rd, alist_get s.repositories repo = some rd := by
    unfold populatedAt at hpop
    cases hg : alist_get s.repositories repo with
    | none => rw [hg] at hpop; simp at hpop
    | some rd => exact ⟨rd, rfl⟩
  have hp : populatedB rd = true := by
    unfold populatedAt at hpop
    rw [hget] at hpop
    exact hpop
  have hbi : rd.issues_completed.getD false = true := by
    rw [← issuesDoneVal_of_populated s repo rd hget hp]
    exact hiss
  unfold repoNeeds
  cases hmc : cfg.migrate_content with
  | false =>
    rw [is_issues_of_populated s repo rd hget hp]
    simp [hbi]
  | true =>
    have hbc : rd.content_completed.getD false = true := by
      rw [← contentDoneVal_eq s repo rd hget]
      exact hcont hmc
    rw [is_content_of_populated s repo rd hget hp]
    simp only
    rw [is_issues_of_populated s repo rd hget hp]
    simp [hbi, hbc]

theorem content_phase_ckpt (content_ok : Bool) (repo : String) (needed : Bool) (w : World)
    (h : (content_phase content_ok repo needed w).1 = true) :
    (content_phase content_ok repo needed w).2.ckpt =
      (if needed then mark_content_completed w.ckpt repo else w.ckpt) := by
  cases needed with
  | false => simp [content_phase]
  | true =>
    cases content_ok with
    | false => simp [content_phase] at h
    | true => simp [content_phase, wMarkContentCompleted]

theorem issues_phase_ready (fail : FailOracle) (cfg : Config) (sourceIssues : List Issue)
    (sourceComments : Nat → List Comment) (repo : String) (needed : Bool) (w : World)
    (hcont : cfg.migrate_content = true → contentDoneVal w.ckpt repo = true)
    (hdone : needed = false → issuesDoneVal w.ckpt repo = true ∧ populatedAt w.ckpt repo = true)
    (h : (issues_phase fail cfg sourceIssues sourceComments repo needed w).1 = true) :
    RepoReady cfg (issues_phase fail cfg sourceIssues sourceComments repo needed w).2.ckpt
      repo := by
  cases needed with
  | false =>
    have hd := hdone rfl
    simp only [issues_phase, Bool.false_eq_true, if_false]
    exact ⟨hd.2, hd.1, hcont⟩
  | true =>
    cases hf : fail w.trace.length with
    | some msg => simp [issues_phase, callRemote, hf] at h
    | none =>
      rcases hmi : migrate_issues fail cfg repo (sort_by_number sourceIssues) sourceComments
          ({ w with trace := w.trace ++ [RemoteOp.getIssuesList cfg.source_org repo] })
        with ⟨ok, w4⟩
      have hstep := ckptStep_issues fail cfg repo (sort_by_number sourceIssues) sourceComments
          ({ w with trace := w.trace ++ [RemoteOp.getIssuesList cfg.source_org repo] })
      rw [hmi] at hstep
      cases ok with
      | false => simp [issues_phase, callRemote, hf, hmi] at h
      | true =>
        simp only [issues_phase, callRemote, hf, hmi, wMarkIssuesCompleted, if_true]
        exact ⟨populatedAt_mark_issues_self w4.ckpt repo,
          issuesDoneVal_mark_issues_self w4.ckpt repo,
          fun hmc => by
            rw [contentDoneVal_mark_issues, hstep.1 repo]
            exact hcont hmc⟩

theorem migrate_repository_rest_ready (fail : FailOracle) (cfg : Config)
    (content_ok : Bool) (sourceIssues : List Issue) (sourceComments : Nat → List Comment)
    (repo : String) (w : World)
    (h : (migrate_repository_rest fail cfg content_ok sourceIssues sourceComments repo w).1
      = true) :
    RepoReady cfg
      (migrate_repository_rest fail cfg content_ok sourceIssues sourceComments repo w).2.ckpt
      repo := by
  rcases hcp : content_phase content_ok repo (repoNeeds cfg w.ckpt repo).1
      ({ w with ckpt := (repoNeeds cfg w.ckpt repo).2.2 }) with ⟨okc, w2⟩
  cases okc with
  | false =>
    have : (migrate_repository_rest fail cfg content_ok sourceIssues sourceComments repo w)
        = (false, w2) := by
      simp only [migrate_repository_rest, hcp]
    rw [this] at h
    simp at h
  | true =>
    have hrest : (migrate_repository_rest fail cfg content_ok sourceIssues sourceComments
        repo w) = issues_phase fail cfg sourceIssues sourceComments repo
          (repoNeeds cfg w.ckpt repo).2.1 w2 := by
      simp only [migrate_repository_rest, hcp]
    rw [hrest] at h ⊢
    have hckpt := content_phase_ckpt content_ok repo (repoNeeds cfg w.ckpt repo).1
      ({ w with ckpt := (repoNeeds cfg w.ckpt repo).2.2 }) (by rw [hcp])
    rw [hcp] at hckpt
    refine issues_phase_ready fail cfg sourceIssues sourceComments repo _ w2 ?_ ?_ h
    · intro hmc
      rw [hckpt]
      by_cases h1 : (repoNeeds cfg w.ckpt repo).1 = true
      · simp only [h1, if_true]
        exact contentDoneVal_mark_content_self _ repo
      · have h1' : (repoNeeds cfg w.ckpt repo).1 = false :=
          Bool.not_eq_true _ |>.mp h1
        simp only [h1', Bool.false_eq_true, if_false]
        exact repoNeeds_content_done cfg w.ckpt repo hmc h1'
    · intro h2
      have hid := repoNeeds_issues_done cfg w.ckpt repo h2
      rw [hckpt]
      by_cases h1 : (repoNeeds cfg w.ckpt repo).1 = true
      · simp only [h1, if_true]
        constructor
        · rw [issuesDoneVal_mark_content]
          exact hid.1
        · exact populatedAt_mark_content_self _ repo
      · have h1' : (repoNeeds cfg w.ckpt repo).1 = false :=
          Bool.not_eq_true _ |>.mp h1
        simp only [h1', Bool.false_eq_true, if_false]
        exact hid

theorem migrate_repository_ready (fail : FailOracle) (cfg : Config) (content_ok : Bool)
    (sourceIssues : List Issue) (sourceComments : Nat → List Comment)
    (repo : String) (w : World)
    (h : (migrate_repository fail cfg content_ok sourceIssues sourceComments repo w).1
      = true) :
    RepoReady cfg
      (migrate_repository fail cfg content_ok sourceIssues sourceComments repo w).2.ckpt
      repo := by
  by_cases hskip :
      (!(repoNeeds cfg w.ckpt repo).1 && !(repoNeeds cfg w.ckpt repo).2.1) = true
  · simp only [migrate_repository, hskip, if_true]
    have h1 : (repoNeeds cfg w.ckpt repo).1 = false := by
      simp only [Bool.and_eq_true, Bool.not_eq_true'] at hskip
      exact hskip.1
    have h2 : (repoNeeds cfg w.ckpt repo).2.1 = false := by
      simp only [Bool.and_eq_true, Bool.not_eq_true'] at hskip
      exact hskip.2
    have hid := repoNeeds_issues_done cfg w.ckpt repo h2
    exact ⟨hid.2, hid.1, fun hmc => repoNeeds_content_done cfg w.ckpt repo hmc h1⟩
  · have hskip' :
        (!(repoNeeds cfg w.ckpt repo).1 && !(repoNeeds cfg w.ckpt repo).2.1) = false :=
      Bool.not_eq_true _ |>.mp hskip
    cases hf : fail w.trace.length with
    | none =>
      simp only [migrate_repository, hskip', Bool.false_eq_true, if_false,
        callRemote, hf] at h ⊢
      exact migrate_repository_rest_ready fail cfg content_ok sourceIssues sourceComments
        repo _ h
    | some msg =>
      by_cases hm : (strContains msg "Repository creation failed"
          || strContains msg "422") = true
      · simp only [migrate_repository, hskip', Bool.false_eq_true, if_false,
          callRemote, hf, hm, if_true] at h ⊢
        exact migrate_repository_rest_ready fail cfg content_ok sourceIssues sourceComments
          repo _ h
      · have hm' : (strContains msg "Repository creation failed"
            || strContains msg "422") = false := Bool.not_eq_true _ |>.mp hm
        simp only [migrate_repository, hskip', Bool.false_eq_true, if_false,
          callRemote, hf, hm'] at h

/-- C3: Idempotence of a repeated run: whenever a full repository migration
returns success, invoking it again on the resulting world — with the same
configuration but any remote behaviour, content-transfer outcome or source
listings, and whether or not content migration is enabled — returns success
with the world completely unchanged: no remote call is made (the trace is
identical), no checkpoint mutation is logged, and the checkpoint document is
untouched; the second run answers purely from the checkpoint state. -/
theorem migrate_repository_second_run (fail : FailOracle) (cfg : Config)
    (content_ok : Bool) (sourceIssues : List Issue) (sourceComments : Nat → List Comment)
    (repo : String) (w : World) (fail2 : FailOracle) (content2 : Bool)
    (sourceIssues2 : List Issue) (sourceComments2 : Nat → List Comment)
    (h : (migrate_repository fail cfg content_ok sourceIssues sourceComments repo w).1
      = true) :
    migrate_repository fail2 cfg content2 sourceIssues2 sourceComments2 repo
        (migrate_repository fail cfg content_ok sourceIssues sourceComments repo w).2 =
      (true, (migrate_repository fail cfg content_ok sourceIssues sourceComments repo w).2)
      := by
  have hready := migrate_repository_ready fail cfg content_ok sourceIssues sourceComments
    repo w h
  set w1 := (migrate_repository fail cfg content_ok sourceIssues sourceComments repo w).2
    with hw1
  have ht := ready_repoNeeds cfg w1.ckpt repo hready
  show migrate_repository fail2 cfg content2 sourceIssues2 sourceComments2 repo w1
    = (true, w1)
  simp only [migrate_repository, ht]
  rfl

theorem issueDone_comments_loop (fail : FailOracle) (cfg : Config) (repo : String)
    (srcNum tgtNum done : Nat) :
    ∀ (rest : List Comment) (i : Nat) (w : World) (r' : String) (n' : Nat),
      is_issue_completed
        (migrate_comments_loop fail cfg repo srcNum tgtNum done rest i w).2.ckpt r' n' =
      is_issue_completed w.ckpt r' n' := by
  intro rest
  induction rest with
  | nil => intro i w r' n'; rfl
  | cons cm rest ih =>
    intro i w r' n'
    by_cases hskip : i < done
    · simp only [migrate_comments_loop, hskip, if_true]
      exact ih (i + 1) w r' n'
    · cases hf : fail w.trace.length with
      | some msg => simp [migrate_comments_loop, hskip, callRemote, hf]
      | none =>
        simp only [migrate_comments_loop, hskip, if_false, callRemote, hf]
        rw [ih]
        simp only [wUpdateCommentProgress]
        exact is_issue_completed_update w.ckpt repo srcNum (i + 1) r' n'

theorem issueDone_comments (fail : FailOracle) (cfg : Config) (repo : String)
    (srcNum tgtNum : Nat) (comments : List Comment) (w : World) (r' : String) (n' : Nat) :
    is_issue_completed
      (migrate_comments fail cfg repo srcNum tgtNum comments w).2.ckpt r' n' =
    is_issue_completed w.ckpt r' n' := by
  simp only [migrate_comments]
  exact issueDone_comments_loop fail cfg repo srcNum tgtNum _ comments 0 w r' n'

theorem issueDone_handle (fail : FailOracle) (cfg : Config) (repo : String)
    (srcNum tgtNum : Nat) (cf : CommentsField) (sourceComments : List Comment)
    (w : World) (r' : String) (n' : Nat) :
    is_issue_completed
      (handle_comments fail cfg repo srcNum tgtNum cf sourceComments w).2.ckpt r' n' =
    is_issue_completed w.ckpt r' n' := by
  cases cf with
  | count n =>
    simp only [handle_comments]
    by_cases h : 0 < n
    · simp only [h, if_true, callRemote]
      cases hf : fail w.trace.length with
      | some msg => rfl
      | none =>
        by_cases he : sourceComments.isEmpty
        · simp only [he, if_true]
        · simp only [he, if_false]
          exact issueDone_comments fail cfg repo srcNum tgtNum sourceComments _ r' n'
    · simp only [h, if_false]
  | objs cs =>
    simp only [handle_comments]
    by_cases h : 0 < cs.length
    · simp only [h, if_true]
      exact issueDone_comments fail cfg repo srcNum tgtNum cs w r' n'
    · simp only [h, if_false]

theorem migrate_comments_loop_noFail (cfg : Config) (repo : String)
    (srcNum tgtNum done : Nat) :
    ∀ (rest : List Comment) (i : Nat) (w : World),
      (migrate_comments_loop noFail cfg repo srcNum tgtNum done rest i w).1 = true ∧
      (migrate_comments_loop noFail cfg repo srcNum tgtNum done rest i w).2.trace =
        w.trace ++ (rest.drop (done - i)).map
          (fun cm => RemoteOp.createComment cfg.target_org repo tgtNum
            (format_comment_body cfg cm repo)) ∧
      get_comment_progress
          (migrate_comments_loop noFail cfg repo srcNum tgtNum done rest i w).2.ckpt
          repo srcNum =
        (if max i done < i + rest.length then i + rest.length
         else get_comment_progress w.ckpt repo srcNum) := by
  intro rest
  induction rest with
  | nil =>
    intro i w
    refine ⟨rfl, by simp [migrate_comments_loop], ?_⟩
    simp only [migrate_comments_loop, List.length_nil, Nat.add_zero]
    rw [if_neg (Nat.not_lt.mpr (Nat.le_max_left i done))]
  | cons cm rest ih =>
    intro i w
    by_cases hskip : i < done
    · have heq : migrate_comments_loop noFail cfg repo srcNum tgtNum done (cm :: rest) i w =
          migrate_comments_loop noFail cfg repo srcNum tgtNum done rest (i + 1) w := by
        simp [migrate_comments_loop, hskip]
      rw [heq]
      obtain ⟨ha, hb, hc⟩ := ih (i + 1) w
      refine ⟨ha, ?_, ?_⟩
      · rw [hb]
        have hdrop : (cm :: rest).drop (done - i) = rest.drop (done - (i + 1)) := by
          have h1 : done - i = (done - (i + 1)) + 1 := by omega
          rw [h1, List.drop_succ_cons]
        rw [hdrop]
      · rw [hc]
        have hmax : max (i + 1) done = max i done := by
          rw [Nat.max_eq_right hskip, Nat.max_eq_right (Nat.le_of_lt hskip)]
        have harith : (i + 1) + rest.length = i + (cm :: rest).length := by
          simp [List.length_cons]
          omega
        rw [hmax, harith]
    · have hle : done ≤ i := Nat.not_lt.mp hskip
      have heq : migrate_comments_loop noFail cfg repo srcNum tgtNum done (cm :: rest) i w =
          migrate_comments_loop noFail cfg repo srcNum tgtNum done rest (i + 1)
            (wUpdateCommentProgress
              ({ w with trace := w.trace ++ [RemoteOp.createComment cfg.target_org repo
                  tgtNum (format_comment_body cfg cm repo)] }) repo srcNum (i + 1)) := by
        simp [migrate_comments_loop, hskip, callRemote, noFail]
      rw [heq]
      obtain ⟨ha, hb, hc⟩ := ih (i + 1) _
      have h0 : done - i = 0 := by omega
      have h1 : done - (i + 1) = 0 := by omega
      refine ⟨ha, ?_, ?_⟩
      · rw [hb]
        simp [wUpdateCommentProgress, h0, h1]
      · rw [hc]
        have hcur : get_comment_progress
            (wUpdateCommentProgress
              ({ w with trace := w.trace ++ [RemoteOp.createComment cfg.target_org repo
                  tgtNum (format_comment_body cfg cm repo)] }) repo srcNum (i + 1)).ckpt
            repo srcNum = i + 1 := by
          simp only [wUpdateCommentProgress]
          exact get_comment_progress_update_self _ repo srcNum (i + 1)
        rw [hcur]
        have hmax1 : max (i + 1) done = i + 1 := Nat.max_eq_left (by omega)
        have hmax0 : max i done = i := Nat.max_eq_left hle
        rw [hmax1, hmax0]
        rcases Nat.eq_zero_or_pos rest.length with hz | hz
        · simp [hz]
        · have hc1 : i + 1 < i + 1 + rest.length := by omega
          have hc0 : i < i + (cm :: rest).length := by simp [List.length_cons]
          rw [if_pos hc1, if_pos hc0]
          simp [List.length_cons]
          omega

theorem cursorWrites_append (l1 l2 : List CkptOp) (repo : String) (n : Nat) :
    cursorWrites (l1 ++ l2) repo n = cursorWrites l1 repo n ++ cursorWrites l2 repo n := by
  simp [cursorWrites, List.filterMap_append]

theorem cursorWrites_setCursor (l : List CkptOp) (repo : String) (n v : Nat) :
    cursorWrites (l ++ [CkptOp.setCursor repo n v]) repo n =
      cursorWrites l repo n ++ [v] := by
  rw [cursorWrites_append]
  simp [cursorWrites]

theorem chain_lt_range_one (s m : Nat) :
    List.Chain' (fun a b => a < b) (List.range' s m) := by
  cases m with
  | zero => simp
  | succ k =>
    rw [List.range'_succ]
    exact List.chain_lt_range' s k (by omega)

theorem migrate_comments_loop_writes (fail : FailOracle) (cfg : Config) (repo : String)
    (srcNum tgtNum done : Nat) :
    ∀ (rest : List Comment) (i : Nat) (w : World), ∃ m,
      cursorWrites
          (migrate_comments_loop fail cfg repo srcNum tgtNum done rest i w).2.ckptLog
          repo srcNum =
        cursorWrites w.ckptLog repo srcNum ++ List.range' (max i done + 1) m ∧
      max i done + m ≤ max (i + rest.length) done := by
  intro rest
  induction rest with
  | nil =>
    intro i w
    refine ⟨0, by simp [migrate_comments_loop], ?_⟩
    simp
  | cons cm rest ih =>
    intro i w
    by_cases hskip : i < done
    · have heq : migrate_comments_loop fail cfg repo srcNum tgtNum done (cm :: rest) i w =
          migrate_comments_loop fail cfg repo srcNum tgtNum done rest (i + 1) w := by
        simp [migrate_comments_loop, hskip]
      obtain ⟨m, hw, hb⟩ := ih (i + 1) w
      have hmax : max (i + 1) done = max i done := by
        rw [Nat.max_eq_right hskip, Nat.max_eq_right (Nat.le_of_lt hskip)]
      refine ⟨m, ?_, ?_⟩
      · rw [heq, hw, hmax]
      · rw [← hmax]
        have harith : (i + 1) + rest.length = i + (cm :: rest).length := by
          simp [List.length_cons]
          omega
        rw [← harith]
        exact hb
    · have hle : done ≤ i := Nat.not_lt.mp hskip
      cases hf : fail w.trace.length with
      | some msg =>
        have heq : migrate_comments_loop fail cfg repo srcNum tgtNum done (cm :: rest) i w =
            (false, { w with trace := w.trace ++ [RemoteOp.createComment cfg.target_org
              repo tgtNum (format_comment_body cfg cm repo)] }) := by
          simp [migrate_comments_loop, hskip, callRemote, hf]
        refine ⟨0, ?_, ?_⟩
        · rw [heq]
          simp
        · simp only [Nat.add_zero]
          exact max_le_max (Nat.le_add_right i (cm :: rest).length) (Nat.le_refl done)
      | none =>
        have heq : migrate_comments_loop fail cfg repo srcNum tgtNum done (cm :: rest) i w =
            migrate_comments_loop fail cfg repo srcNum tgtNum done rest (i + 1)
              (wUpdateCommentProgress
                ({ w with trace := w.trace ++ [RemoteOp.createComment cfg.target_org repo
                    tgtNum (format_comment_body cfg cm repo)] }) repo srcNum (i + 1)) := by
          simp [migrate_comments_loop, hskip, callRemote, hf]
        obtain ⟨m, hw, hb⟩ := ih (i + 1)
          (wUpdateCommentProgress
            ({ w with trace := w.trace ++ [RemoteOp.createComment cfg.target_org repo
                tgtNum (format_comment_body cfg cm repo)] }) repo srcNum (i + 1))
        have hlog : cursorWrites (wUpdateCommentProgress
            ({ w with trace := w.trace ++ [RemoteOp.createComment cfg.target_org repo
                tgtNum (format_comment_body cfg cm repo)] }) repo srcNum (i + 1)).ckptLog
            repo srcNum = cursorWrites w.ckptLog repo srcNum ++ [i + 1] := by
          simp only [wUpdateCommentProgress]
          exact cursorWrites_setCursor w.ckptLog repo srcNum (i + 1)
        have hmax1 : max (i + 1) done = i + 1 := Nat.max_eq_left (by omega)
        have hmax0 : max i done = i := Nat.max_eq_left hle
        refine ⟨m + 1, ?_, ?_⟩
        · rw [heq, hw, hlog, hmax1, hmax0, List.range'_succ]
          simp
        · rw [hmax0]
          rw [hmax1] at hb
          have : max ((i + 1) + rest.length) done = (i + 1) + rest.length :=
            Nat.max_eq_left (by omega)
          rw [this] at hb
          have h2 : max (i + (cm :: rest).length) done = i + (cm :: rest).length :=
            Nat.max_eq_left (by simp [List.length_cons]; omega)
          rw [h2]
          simp [List.length_cons]
          omega

theorem ifpos_eq_max (x : ℚ) : (if 0 < x then x else 0) = max 0 x := by
  rcases lt_or_le 0 x with h | h
  · rw [if_pos h, max_eq_right h.le]
  · rw [if_neg (not_lt.mpr h), max_eq_left h]

/-- C10: Empty issue set is a no-op success: for every repository, oracle and
world, `migrate_issues` on an empty source list returns success immediately
with the world untouched — no remote call, no checkpoint mutation; the
min/max of the number set are only computed after this early return, so the
min-to-max iteration is total. -/
theorem migrate_issues_empty_noop (fail : FailOracle) (cfg : Config) (repo : String)
    (sourceComments : Nat → List Comment) (w : World) :
    migrate_issues fail cfg repo [] sourceComments w = (true, w) := rfl

/-- C6: Legacy document upgrade: for a repository record that lacks both the
`content_completed` and `issues_completed` keys, the queries synthesize
`content_completed = false` and `issues_completed = (some issue record is
completed)`, and the document written back holds exactly those fields with
the issue records preserved. -/
theorem legacy_upgrade_inference (s : MigState) (repo : String) (rd : RepoData)
    (l : List (Nat × IssueData))
    (hget : alist_get s.repositories repo = some rd)
    (hc : rd.content_completed = none) (hi : rd.issues_completed = none)
    (hl : rd.issues = some l) :
    (is_issues_completed s repo).1 = l.any (fun p => p.2.completed.getD false) ∧
    (is_content_completed s repo).1 = false ∧
    alist_get ((is_issues_completed s repo).2).repositories repo =
      some ⟨some false, some (l.any (fun p => p.2.completed.getD false)), some l⟩ ∧
    alist_get ((is_content_completed s repo).2).repositories repo =
      some ⟨some false, some (l.any (fun p => p.2.completed.getD false)), some l⟩ := by
  have hrep : repair_repo rd =
      ⟨some false, some (l.any (fun p => p.2.completed.getD false)), some l⟩ := by
    cases rd with
    | mk c i li =>
      simp only at hc hi hl
      subst hc
      subst hi
      subst hl
      simp [repair_repo, infer_issues_completed]
  have hens := ensure_get_self s repo
  rw [hget] at hens
  have hens' : alist_get (ensure_repo_exists s repo).repositories repo =
      some ⟨some false, some (l.any (fun p => p.2.completed.getD false)), some l⟩ := by
    rw [hens]
    exact congrArg some hrep
  refine ⟨?_, ?_, ?_, ?_⟩
  · rw [is_issues_completed_fst]
    unfold issuesDoneVal
    rw [hget]
    simp [hi, hl, infer_issues_completed]
  · rw [is_content_completed_fst]
    unfold contentDoneVal
    rw [hget]
    simp [hc]
  · have hsnd := is_issues_completed_snd s repo
    rw [hget] at hsnd
    rw [hsnd]
    exact hens'
  · have hsnd := is_content_completed_snd s repo
    rw [hget] at hsnd
    rw [hsnd]
    exact hens'

theorem legacy_upgrade_inference_witness :
    (is_issues_completed legacyState "legacy-repo").1 = true ∧
    (is_content_completed legacyState "legacy-repo").1 = false ∧
    alist_get ((is_issues_completed legacyState "legacy-repo").2).repositories
        "legacy-repo" =
      some ⟨some false, some true, some [(1, ⟨some true, none⟩)]⟩ := by
  have h := legacy_upgrade_inference legacyState "legacy-repo"
    ⟨none, none, some [(1, ⟨some true, none⟩)]⟩ [(1, ⟨some true, none⟩)] rfl rfl rfl rfl
  exact ⟨h.1, h.2.1, h.2.2.1⟩

/-- C7 counterexample: the claim says a query such as `is_content_completed`
creates the record for a repository that is not yet in the document and
writes the document back; on the code, for an unknown repository both
queries return false with the document unchanged, and no record exists
afterwards. -/
theorem unknown_repo_query_no_creation :
    is_content_completed ⟨[]⟩ "repo" = (false, (⟨[]⟩ : MigState)) ∧
    alist_get ((is_content_completed (⟨[]⟩ : MigState) "repo").2).repositories "repo"
      = none ∧
    is_issues_completed ⟨[]⟩ "repo" = (false, (⟨[]⟩ : MigState)) ∧
    is_repo_completed ⟨[]⟩ "repo" = false :=
  ⟨rfl, rfl, rfl, rfl⟩

/-- C7 amended: read-repair applies only to repository names already present
in the checkpoint document: for a present record the queries write back the
repaired (fully populated) record, while for an unknown repository name they
return false without creating a record or writing.  (`is_repo_completed`
performs no write-back at all, which its state-free type in this
development records.) -/
theorem read_repair_scope (s : MigState) (repo : String) :
    (alist_get s.repositories repo = none →
      is_content_completed s repo = (false, s) ∧
      is_issues_completed s repo = (false, s)) ∧
    (∀ rd, alist_get s.repositories repo = some rd →
      (is_content_completed s repo).2 = ensure_repo_exists s repo ∧
      (is_issues_completed s repo).2 = ensure_repo_exists s repo ∧
      populatedAt ((is_content_completed s repo).2) repo = true) := by
  constructor
  · intro h
    constructor
    · simp [is_content_completed, h]
    · simp [is_issues_completed, h]
  · intro rd h
    have h1 := is_content_completed_snd s repo
    have h2 := is_issues_completed_snd s repo
    rw [h] at h1 h2
    exact ⟨h1, h2, by rw [h1]; exact populatedAt_ensure_self s repo⟩

theorem read_repair_scope_witness :
    (is_content_completed (⟨[]⟩ : MigState) "r" = (false, (⟨[]⟩ : MigState))) ∧
    ((is_content_completed legacyState "legacy-repo").2 =
      ensure_repo_exists legacyState "legacy-repo") ∧
    populatedAt ((is_content_completed legacyState "legacy-repo").2) "legacy-repo"
      = true :=
  ⟨((read_repair_scope ⟨[]⟩ "r").1 rfl).1,
   ((read_repair_scope legacyState "legacy-repo").2
      ⟨none, none, some [(1, ⟨some true, none⟩)]⟩ rfl).1,
   ((read_repair_scope legacyState "legacy-repo").2
      ⟨none, none, some [(1, ⟨some true, none⟩)]⟩ rfl).2.2⟩

/-- C5: Rate governor blocking behaviour: if the operation is already
admissible the call returns at once without sleeping; if the purged window
is empty it returns at once; and when the purged window still holds at least
the ceiling's worth of timestamps the caller is suspended for exactly
`windowLength - (now - oldestTimestampInWindow)` clamped to zero, after
which the call returns with no further admissibility check (the returned
window is exactly the purged one, unmodified by any re-check). -/
theorem rate_wait_spec (w : RequestWindow) (now : ℚ) :
    ((can_make_request w now).1 = true → (wait_if_necessary w now).1 = 0) ∧
    ((clean_old_requests w now).timestamps = [] → (wait_if_necessary w now).1 = 0) ∧
    (∀ t ts, (clean_old_requests w now).timestamps = t :: ts →
      w.limit ≤ (t :: ts).length →
      (wait_if_necessary w now).1 =
        max 0 ((w.window_seconds : ℚ) - (now - ts.foldl min t))) ∧
    (wait_if_necessary w now).2 = clean_old_requests w now := by
  have hlim : (clean_old_requests w now).limit = w.limit := rfl
  have hwin : (clean_old_requests w now).window_seconds = w.window_seconds := rfl
  by_cases hok : (clean_old_requests w now).timestamps.length <
      (clean_old_requests w now).limit
  · have hcan : can_make_request w now = (true, clean_old_requests w now) := by
      simp [can_make_request, hok]
    have hrun : wait_if_necessary w now = (0, clean_old_requests w now) := by
      simp [wait_if_necessary, hcan]
    refine ⟨fun _ => by rw [hrun], fun _ => by rw [hrun], ?_, by rw [hrun]⟩
    intro t ts hts hlen
    rw [hts] at hok
    rw [hlim] at hok
    omega
  · have hcan : can_make_request w now = (false, clean_old_requests w now) := by
      simp [can_make_request, hok]
    cases hts : (clean_old_requests w now).timestamps with
    | nil =>
      have hrun : wait_if_necessary w now = (0, clean_old_requests w now) := by
        simp [wait_if_necessary, hcan, hts]
      refine ⟨fun _ => by rw [hrun], fun _ => by rw [hrun], ?_, by rw [hrun]⟩
      intro t ts h2 _
      simp at h2
    | cons t0 ts0 =>
      have hrun : wait_if_necessary w now =
          (if 0 < ((w.window_seconds : ℚ) - (now - ts0.foldl min t0)) then
            ((w.window_seconds : ℚ) - (now - ts0.foldl min t0)) else 0,
           clean_old_requests w now) := by
        simp [wait_if_necessary, hcan, hts, hwin]
      refine ⟨?_, ?_, ?_, by rw [hrun]⟩
      · intro hc
        rw [hcan] at hc
        simp at hc
      · intro h0
        simp at h0
      · intro t ts h2 hlen
        injection h2 with h2a h2b
        subst h2a
        subst h2b
        rw [hrun]
        exact ifpos_eq_max _

theorem rate_wait_spec_witness :
    (wait_if_necessary ⟨[(1 : ℚ), 2], 2, 60⟩ 30).1 =
      max 0 ((((⟨[(1 : ℚ), 2], 2, 60⟩ : RequestWindow).window_seconds : ℚ)) -
        (30 - [(2 : ℚ)].foldl min 1)) ∧
    (wait_if_necessary ⟨[(1 : ℚ), 2], 2, 60⟩ 62).1 = 0 := by
  constructor
  · exact (rate_wait_spec ⟨[(1 : ℚ), 2], 2, 60⟩ 30).2.2.1 1 [2]
      (by norm_num [clean_old_requests, List.filter]) (by norm_num)
  · exact (rate_wait_spec ⟨[(1 : ℚ), 2], 2, 60⟩ 62).1
      (by norm_num [can_make_request, clean_old_requests, List.filter])

/-- C4: Comment replay resumes from the stored cursor: with a successful
remote, replay succeeds, creates exactly the comments at indices at or past
the stored cursor, in order, and leaves the cursor at the comment count
(unchanged when the cursor already covers the whole list). -/
theorem comment_replay_resumes_from_cursor (cfg : Config) (repo : String)
    (srcNum tgtNum : Nat) (comments : List Comment) (w : World) :
    (migrate_comments noFail cfg repo srcNum tgtNum comments w).1 = true ∧
    (migrate_comments noFail cfg repo srcNum tgtNum comments w).2.trace =
      w.trace ++ (comments.drop (get_comment_progress w.ckpt repo srcNum)).map
        (fun cm => RemoteOp.createComment cfg.target_org repo tgtNum
          (format_comment_body cfg cm repo)) ∧
    get_comment_progress
        (migrate_comments noFail cfg repo srcNum tgtNum comments w).2.ckpt repo srcNum =
      (if get_comment_progress w.ckpt repo srcNum < comments.length then comments.length
       else get_comment_progress w.ckpt repo srcNum) := by
  obtain ⟨ha, hb, hc⟩ := migrate_comments_loop_noFail cfg repo srcNum tgtNum
    (get_comment_progress w.ckpt repo srcNum) comments 0 w
  rw [Nat.sub_zero] at hb
  rw [Nat.zero_max, Nat.zero_add] at hc
  exact ⟨ha, hb, hc⟩

/-- C9: Comment cursor invariant: starting from an empty mutation log, the
cursor values persisted during one comment-replay pass (under any remote
behaviour, including mid-pass failure) form a strictly increasing sequence,
each strictly above the stored cursor and never above the comment count. -/
theorem comment_cursor_monotone (fail : FailOracle) (cfg : Config) (repo : String)
    (srcNum tgtNum : Nat) (comments : List Comment) (w : World)
    (hlog : w.ckptLog = []) :
    List.Chain' (fun a b => a < b)
      (cursorWrites (migrate_comments fail cfg repo srcNum tgtNum comments w).2.ckptLog
        repo srcNum) ∧
    ∀ v ∈ cursorWrites (migrate_comments fail cfg repo srcNum tgtNum comments w).2.ckptLog
        repo srcNum,
      get_comment_progress w.ckpt repo srcNum < v ∧ v ≤ comments.length := by
  obtain ⟨m, hw, hb⟩ := migrate_comments_loop_writes fail cfg repo srcNum tgtNum
    (get_comment_progress w.ckpt repo srcNum) comments 0 w
  rw [hlog] at hw
  have hnil : cursorWrites [] repo srcNum = [] := rfl
  rw [hnil, List.nil_append, Nat.zero_max] at hw
  rw [Nat.zero_max] at hb
  rw [Nat.zero_add] at hb
  have hgoal : cursorWrites
      (migrate_comments fail cfg repo srcNum tgtNum comments w).2.ckptLog repo srcNum =
      List.range' (get_comment_progress w.ckpt repo srcNum + 1) m := by
    simp only [migrate_comments]
    exact hw
  rw [hgoal]
  constructor
  · exact chain_lt_range_one _ _
  · intro v hv
    rw [List.mem_range'_1] at hv
    constructor
    · omega
    · rcases le_or_lt (get_comment_progress w.ckpt repo srcNum) comments.length with h | h
      · rw [Nat.max_eq_left h] at hb
        omega
      · rw [Nat.max_eq_right h.le] at hb
        omega

theorem comment_cursor_monotone_witness :
    List.Chain' (fun a b => a < b)
      (cursorWrites (migrate_comments noFail sampleCfg "repo" 7 7
        [⟨some "a", some "bob", some "t"⟩, ⟨some "b", some "bob", some "t"⟩]
        emptyWorld).2.ckptLog "repo" 7) ∧
    ∀ v ∈ cursorWrites (migrate_comments noFail sampleCfg "repo" 7 7
        [⟨some "a", some "bob", some "t"⟩, ⟨some "b", some "bob", some "t"⟩]
        emptyWorld).2.ckptLog "repo" 7,
      get_comment_progress emptyWorld.ckpt "repo" 7 < v ∧ v ≤ 2 :=
  comment_cursor_monotone noFail sampleCfg "repo" 7 7
    [⟨some "a", some "bob", some "t"⟩, ⟨some "b", some "bob", some "t"⟩] emptyWorld rfl

/-- C1: Issue replay with numbering preservation: for source issues numbered
1, 3 and 6 with an empty checkpoint and a fresh target (sequential numbers
from 1), replay succeeds and issues exactly 6 creations in ascending order —
the real issues at 1, 3 and 6 and placeholders at 2, 4 and 5, each
placeholder immediately closed and every number 1..6 marked done; the
target's next number afterwards is 7, so the created issues received the
numbers 1..6 in order. -/
theorem issue_replay_numbering_preservation :
    (migrate_issues noFail sampleCfg "repo" issues136 noComments emptyWorld).1 = true ∧
    (migrate_issues noFail sampleCfg "repo" issues136 noComments emptyWorld).2.trace =
      [RemoteOp.createIssue "dst-org" "repo" "Issue 1"
         (format_issue_body sampleCfg (sampleOpenIssue 1 "Issue 1") "repo"),
       RemoteOp.createIssue "dst-org" "repo" (placeholder_title 2)
         (placeholder_body sampleCfg "repo" 2),
       RemoteOp.closeIssue "dst-org" "repo" 2,
       RemoteOp.createIssue "dst-org" "repo" "Issue 3"
         (format_issue_body sampleCfg (sampleOpenIssue 3 "Issue 3") "repo"),
       RemoteOp.createIssue "dst-org" "repo" (placeholder_title 4)
         (placeholder_body sampleCfg "repo" 4),
       RemoteOp.closeIssue "dst-org" "repo" 4,
       RemoteOp.createIssue "dst-org" "repo" (placeholder_title 5)
         (placeholder_body sampleCfg "repo" 5),
       RemoteOp.closeIssue "dst-org" "repo" 5,
       RemoteOp.createIssue "dst-org" "repo" "Issue 6"
         (format_issue_body sampleCfg (sampleOpenIssue 6 "Issue 6") "repo")] ∧
    createdIssueTitles
        (migrate_issues noFail sampleCfg "repo" issues136 noComments emptyWorld).2.trace =
      ["Issue 1", "[PLACEHOLDER] Issue #2", "Issue 3", "[PLACEHOLDER] Issue #4",
       "[PLACEHOLDER] Issue #5", "Issue 6"] ∧
    (migrate_issues noFail sampleCfg "repo" issues136 noComments
      emptyWorld).2.nextIssueNumber = 7 ∧
    ((List.range' 1 6).all fun n => is_issue_completed
      (migrate_issues noFail sampleCfg "repo" issues136 noComments emptyWorld).2.ckpt
      "repo" n) = true :=
  ⟨rfl, rfl, rfl, rfl, rfl⟩

/-- Success of a comment replay loop implies the success of every
comment-creation call it performed: the loop issues one create call per
unskipped comment, at consecutive trace positions, and aborts at the first
failing one, so a true result means the oracle granted them all. -/
theorem migrate_comments_loop_success_calls (fail : FailOracle) (cfg : Config)
    (repo : String) (srcNum tgtNum done : Nat) :
    ∀ (rest : List Comment) (i : Nat) (w : World),
      (migrate_comments_loop fail cfg repo srcNum tgtNum done rest i w).1 = true →
      ∀ k, k < rest.length - (done - i) → fail (w.trace.length + k) = none := by
  intro rest
  induction rest with
  | nil =>
    intro i w _ k hk
    simp at hk
  | cons cm rest ih =>
    intro i w hres k hk
    by_cases hskip : i < done
    · have heq : migrate_comments_loop fail cfg repo srcNum tgtNum done (cm :: rest) i w =
          migrate_comments_loop fail cfg repo srcNum tgtNum done rest (i + 1) w := by
        simp [migrate_comments_loop, hskip]
      rw [heq] at hres
      refine ih (i + 1) w hres k ?_
      rw [List.length_cons] at hk
      omega
    · have hle : done ≤ i := Nat.not_lt.mp hskip
      cases hfw : fail w.trace.length with
      | some msg =>
        have heq : migrate_comments_loop fail cfg repo srcNum tgtNum done (cm :: rest) i w =
            (false, { w with trace := w.trace ++ [RemoteOp.createComment cfg.target_org
              repo tgtNum (format_comment_body cfg cm repo)] }) := by
          simp [migrate_comments_loop, hskip, callRemote, hfw]
        rw [heq] at hres
        simp at hres
      | none =>
        have heq : migrate_comments_loop fail cfg repo srcNum tgtNum done (cm :: rest) i w =
            migrate_comments_loop fail cfg repo srcNum tgtNum done rest (i + 1)
              (wUpdateCommentProgress
                ({ w with trace := w.trace ++ [RemoteOp.createComment cfg.target_org repo
                    tgtNum (format_comment_body cfg cm repo)] }) repo srcNum (i + 1)) := by
          simp [migrate_comments_loop, hskip, callRemote, hfw]
        rw [heq] at hres
        cases k with
        | zero => simpa using hfw
        | succ k2 =>
          have hlen : (wUpdateCommentProgress
              ({ w with trace := w.trace ++ [RemoteOp.createComment cfg.target_org repo
                  tgtNum (format_comment_body cfg cm repo)] }) repo srcNum
              (i + 1)).trace.length = w.trace.length + 1 := by
            simp [wUpdateCommentProgress]
          have hbound : k2 < rest.length - (done - (i + 1)) := by
            rw [List.length_cons] at hk
            omega
          have h2 := ih (i + 1) _ hres k2 hbound
          rw [hlen] at h2
          have harith : w.trace.length + (k2 + 1) = w.trace.length + 1 + k2 := by omega
          rw [harith]
          exact h2

/-- The `migrate_comments` form of the previous lemma: the cursor is read
once at entry, so a successful replay certifies the oracle at the positions
of all `comments.length - cursor` creation calls it made. -/
theorem migrate_comments_success_calls (fail : FailOracle) (cfg : Config)
    (repo : String) (srcNum tgtNum : Nat) (comments : List Comment) (w : World)
    (h : (migrate_comments fail cfg repo srcNum tgtNum comments w).1 = true) :
    ∀ k, k < comments.length - get_comment_progress w.ckpt repo srcNum →
      fail (w.trace.length + k) = none := by
  intro k hk
  refine migrate_comments_loop_success_calls fail cfg repo srcNum tgtNum
    (get_comment_progress w.ckpt repo srcNum) comments 0 w h k ?_
  simpa using hk

/-- C2: A unit is marked done only after its remote side effect succeeds.
Writing `run` for the single-issue replay and `hc` for its comment-handling
step applied to the post-creation world, the conjuncts state: (1) whenever
`run` reports failure, no issue's completed flag has changed (in particular
this issue's flag is still false if it was); (2) whenever it reports success,
the issue's flag is set; (3) success certifies every constituent remote
call: the creation call succeeded, the comment handling succeeded, and, for
a closed source issue, the close call succeeded; (4) a failing creation
call, (5) a failing comment-handling step, and (6) a failing close call each
force `run` to report failure and hence, by (1), leave every flag unchanged;
(7) a successful comment replay certifies every comment-creation call it
performed, so a failing comment creation forces the replay, and with it
`run`, to report failure.  The only tolerated remote failure, the comment
fetch, makes the comment-handling step report success without replaying and
is covered by the success conjuncts. -/
theorem single_issue_done_only_on_success (fail : FailOracle) (cfg : Config)
    (repo : String) (issue : Issue) (n : Nat) (sourceComments : Nat → List Comment)
    (w : World) :
    ((migrate_single_issue fail cfg repo issue n sourceComments w).1 = false →
      ∀ r' n', is_issue_completed
          (migrate_single_issue fail cfg repo issue n sourceComments w).2.ckpt r' n' =
        is_issue_completed w.ckpt r' n') ∧
    ((migrate_single_issue fail cfg repo issue n sourceComments w).1 = true →
      is_issue_completed
        (migrate_single_issue fail cfg repo issue n sourceComments w).2.ckpt repo n
        = true) ∧
    ((migrate_single_issue fail cfg repo issue n sourceComments w).1 = true →
      fail w.trace.length = none ∧
      (handle_comments fail cfg repo n w.nextIssueNumber issue.comments (sourceComments n)
        ({ w with trace := w.trace ++ [RemoteOp.createIssue cfg.target_org repo issue.title
            (format_issue_body cfg issue repo)], nextIssueNumber := w.nextIssueNumber + 1 })).1 = true ∧
      (issue.state = "closed" →
        fail (handle_comments fail cfg repo n w.nextIssueNumber issue.comments
          (sourceComments n)
          ({ w with trace := w.trace ++ [RemoteOp.createIssue cfg.target_org repo issue.title
              (format_issue_body cfg issue repo)], nextIssueNumber := w.nextIssueNumber + 1 })).2.trace.length = none)) ∧
    (∀ msg, fail w.trace.length = some msg →
      (migrate_single_issue fail cfg repo issue n sourceComments w).1 = false) ∧
    ((handle_comments fail cfg repo n w.nextIssueNumber issue.comments (sourceComments n)
        ({ w with trace := w.trace ++ [RemoteOp.createIssue cfg.target_org repo issue.title
            (format_issue_body cfg issue repo)], nextIssueNumber := w.nextIssueNumber + 1 })).1 = false →
      (migrate_single_issue fail cfg repo issue n sourceComments w).1 = false) ∧
    (issue.state = "closed" →
      ∀ msg, fail (handle_comments fail cfg repo n w.nextIssueNumber issue.comments
          (sourceComments n)
          ({ w with trace := w.trace ++ [RemoteOp.createIssue cfg.target_org repo issue.title
              (format_issue_body cfg issue repo)], nextIssueNumber := w.nextIssueNumber + 1 })).2.trace.length = some msg →
        (migrate_single_issue fail cfg repo issue n sourceComments w).1 = false) ∧
    (∀ (srcNum tgtNum : Nat) (comments : List Comment) (w' : World),
      (migrate_comments fail cfg repo srcNum tgtNum comments w').1 = true →
      ∀ k, k < comments.length - get_comment_progress w'.ckpt repo srcNum →
        fail (w'.trace.length + k) = none) := by
  have hmc : ∀ (srcNum tgtNum : Nat) (comments : List Comment) (w' : World),
      (migrate_comments fail cfg repo srcNum tgtNum comments w').1 = true →
      ∀ k, k < comments.length - get_comment_progress w'.ckpt repo srcNum →
        fail (w'.trace.length + k) = none :=
    fun srcNum tgtNum comments w' h =>
      migrate_comments_success_calls fail cfg repo srcNum tgtNum comments w' h
  cases hf : fail w.trace.length with
  | some msg =>
    have hrun : migrate_single_issue fail cfg repo issue n sourceComments w =
        (false, { w with trace := w.trace ++ [RemoteOp.createIssue cfg.target_org repo
          issue.title (format_issue_body cfg issue repo)] }) := by
      simp [migrate_single_issue, callCreateIssue, callRemote, hf]
    exact ⟨fun _ r' n' => by rw [hrun],
      fun h => by rw [hrun] at h; simp at h,
      fun h => by rw [hrun] at h; simp at h,
      fun _ _ => by rw [hrun],
      fun _ => by rw [hrun],
      fun _ _ _ => by rw [hrun],
      hmc⟩
  | none =>
    rcases hh : handle_comments fail cfg repo n w.nextIssueNumber issue.comments
        (sourceComments n)
        ({ w with trace := w.trace ++ [RemoteOp.createIssue cfg.target_org repo issue.title
            (format_issue_body cfg issue repo)], nextIssueNumber := w.nextIssueNumber + 1 })
      with ⟨b, w2⟩
    have hpres : ∀ r' n', is_issue_completed w2.ckpt r' n' =
        is_issue_completed w.ckpt r' n' := by
      intro r' n'
      have h := issueDone_handle fail cfg repo n w.nextIssueNumber issue.comments
        (sourceComments n)
        ({ w with trace := w.trace ++ [RemoteOp.createIssue cfg.target_org repo issue.title
            (format_issue_body cfg issue repo)], nextIssueNumber := w.nextIssueNumber + 1 })
        r' n'
      rw [hh] at h
      exact h
    cases b with
    | false =>
      have hrun : migrate_single_issue fail cfg repo issue n sourceComments w =
          (false, w2) := by
        simp [migrate_single_issue, callCreateIssue, callRemote, hf, hh]
      exact ⟨fun _ r' n' => by rw [hrun]; exact hpres r' n',
        fun h => by rw [hrun] at h; simp at h,
        fun h => by rw [hrun] at h; simp at h,
        fun _ _ => by rw [hrun],
        fun _ => by rw [hrun],
        fun _ _ _ => by rw [hrun],
        hmc⟩
    | true =>
      by_cases hclosed : issue.state = "closed"
      · cases hf2 : fail w2.trace.length with
        | some msg2 =>
          have hrun : migrate_single_issue fail cfg repo issue n sourceComments w =
              (false, { w2 with trace := w2.trace ++ [RemoteOp.closeIssue cfg.target_org
                repo w.nextIssueNumber] }) := by
            simp [migrate_single_issue, callCreateIssue, callRemote, hf, hh, hclosed, hf2]
          exact ⟨fun _ r' n' => by rw [hrun]; exact hpres r' n',
            fun h => by rw [hrun] at h; simp at h,
            fun h => by rw [hrun] at h; simp at h,
            fun _ _ => by rw [hrun],
            fun _ => by rw [hrun],
            fun _ _ _ => by rw [hrun],
            hmc⟩
        | none =>
          have hrun : migrate_single_issue fail cfg repo issue n sourceComments w =
              (true, wMarkIssueCompleted ({ w2 with trace := w2.trace ++
                [RemoteOp.closeIssue cfg.target_org repo w.nextIssueNumber] }) repo n) := by
            simp [migrate_single_issue, callCreateIssue, callRemote, hf, hh, hclosed, hf2]
          refine ⟨fun h => by rw [hrun] at h; simp at h,
            fun _ => ?_,
            fun _ => ⟨rfl, by simp [hh], fun _ => by simp [hh, hf2]⟩,
            fun msg2 h2 => by simp at h2,
            fun h5 => by simp [hh] at h5,
            fun _ msg2 h6 => by simp [hh, hf2] at h6,
            hmc⟩
          rw [hrun]
          simp only [wMarkIssueCompleted]
          exact is_issue_completed_mark_issue_self w2.ckpt repo n
      · have hrun : migrate_single_issue fail cfg repo issue n sourceComments w =
            (true, wMarkIssueCompleted w2 repo n) := by
          simp [migrate_single_issue, callCreateIssue, callRemote, hf, hh, hclosed]
        refine ⟨fun h => by rw [hrun] at h; simp at h,
          fun _ => ?_,
          fun _ => ⟨rfl, by simp [hh], fun hcl => absurd hcl hclosed⟩,
          fun msg2 h2 => by simp at h2,
          fun h5 => by simp [hh] at h5,
          fun hcl => absurd hcl hclosed,
          hmc⟩
        rw [hrun]
        simp only [wMarkIssueCompleted]
        exact is_issue_completed_mark_issue_self w2.ckpt repo n

theorem single_issue_done_only_on_success_witness :
    ((migrate_single_issue (failOn 0 "boom") sampleCfg "repo" sampleClosedIssue 1
      noComments emptyWorld).1 = false) ∧
    (is_issue_completed (migrate_single_issue (failOn 0 "boom") sampleCfg "repo"
      sampleClosedIssue 1 noComments emptyWorld).2.ckpt "repo" 1 =
      is_issue_completed emptyWorld.ckpt "repo" 1) ∧
    ((migrate_single_issue (failOn 1 "boom") sampleCfg "repo" sampleClosedIssue 1
      noComments emptyWorld).1 = false) ∧
    ((migrate_single_issue (failOn 2 "boom") sampleCfg "repo" sampleClosedIssue 1
      noComments emptyWorld).1 = false) ∧
    (is_issue_completed (migrate_single_issue noFail sampleCfg "repo" sampleClosedIssue 1
      noComments emptyWorld).2.ckpt "repo" 1 = true) ∧
    (noFail (emptyWorld.trace.length + 0) = none) := by
  have h0 := single_issue_done_only_on_success (failOn 0 "boom") sampleCfg "repo"
    sampleClosedIssue 1 noComments emptyWorld
  have h1 := single_issue_done_only_on_success (failOn 1 "boom") sampleCfg "repo"
    sampleClosedIssue 1 noComments emptyWorld
  have h2 := single_issue_done_only_on_success (failOn 2 "boom") sampleCfg "repo"
    sampleClosedIssue 1 noComments emptyWorld
  have hn := single_issue_done_only_on_success noFail sampleCfg "repo" sampleClosedIssue 1
    noComments emptyWorld
  have hfalse := h0.2.2.2.1 "boom" rfl
  exact ⟨hfalse, h0.1 hfalse "repo" 1, h1.2.2.2.2.1 rfl,
    h2.2.2.2.2.2.1 rfl "boom" rfl, hn.2.1 rfl,
    hn.2.2.2.2.2.2 1 1 [⟨some "first", some "bob", some "2020-01-02"⟩] emptyWorld rfl 0
      (by decide)⟩

theorem repository_migration_idempotent_witness :
    (migrate_repository noFail sampleCfg true [sampleOpenIssue 1 "Issue 1"] noComments
      "repo" emptyWorld).1 = true ∧
    migrate_repository noFail sampleCfg true [sampleOpenIssue 1 "Issue 1"] noComments
        "repo" (migrate_repository noFail sampleCfg true [sampleOpenIssue 1 "Issue 1"]
          noComments "repo" emptyWorld).2 =
      (true, (migrate_repository noFail sampleCfg true [sampleOpenIssue 1 "Issue 1"]
        noComments "repo" emptyWorld).2) :=
  ⟨rfl, migrate_repository_second_run noFail sampleCfg true [sampleOpenIssue 1 "Issue 1"]
    noComments "repo" emptyWorld noFail true [sampleOpenIssue 1 "Issue 1"] noComments rfl⟩

/-- C8 counterexample: the claim says any remote API error other than the
422-class conflict, anywhere during the repository's migration, makes the
procedure return failure without marking any unit done.  On the code the
comment-fetch error is tolerated: with content migration disabled, the
fourth remote call (the comment listing for issue 1, a 500-class
`GitHubAPIError`) fails, yet the repository procedure returns success, the
issue and the issue set are marked done, and the failing call is visible in
the trace. -/
theorem comment_fetch_error_tolerated :
    (migrate_repository (failOn 3 "GitHub API error 500: server error") cfgNoContent true
      [countIssue] (fun _ => [⟨some "x", some "bob", some "t"⟩]) "repo"
      emptyWorld).1 = true ∧
    is_issue_completed (migrate_repository (failOn 3 "GitHub API error 500: server error")
      cfgNoContent true [countIssue] (fun _ => [⟨some "x", some "bob", some "t"⟩]) "repo"
      emptyWorld).2.ckpt "repo" 1 = true ∧
    issuesDoneVal (migrate_repository (failOn 3 "GitHub API error 500: server error")
      cfgNoContent true [countIssue] (fun _ => [⟨some "x", some "bob", some "t"⟩]) "repo"
      emptyWorld).2.ckpt "repo" = true ∧
    (migrate_repository (failOn 3 "GitHub API error 500: server error") cfgNoContent true
      [countIssue] (fun _ => [⟨some "x", some "bob", some "t"⟩]) "repo"
      emptyWorld).2.trace =
      [RemoteOp.createRepo "dst-org" "repo",
       RemoteOp.getIssuesList "src-org" "repo",
       RemoteOp.createIssue "dst-org" "repo" "Bug"
         (format_issue_body cfgNoContent countIssue "repo"),
       RemoteOp.getComments "src-org" "repo" 1] :=
  ⟨rfl, rfl, rfl, rfl⟩

/-- C8 amended: repository-creation conflict handling: when the initial
queries leave work to do, a creation error whose message contains
"Repository creation failed" or "422" is swallowed and the run continues
with exactly the same continuation and state as a successful creation,
while a creation error with any other message makes the repository
procedure return failure immediately — with no checkpoint mutation logged
and every completion observation (content flag, issue-set flag, per-issue
flags) unchanged from before the run. -/
theorem repo_creation_conflict_spec (fail : FailOracle) (cfg : Config)
    (content_ok : Bool) (sourceIssues : List Issue)
    (sourceComments : Nat → List Comment) (repo : String) (w : World)
    (hbusy : (repoNeeds cfg w.ckpt repo).1 = true ∨
      (repoNeeds cfg w.ckpt repo).2.1 = true) :
    (fail w.trace.length = none →
      migrate_repository fail cfg content_ok sourceIssues sourceComments repo w =
        migrate_repository_rest fail cfg content_ok sourceIssues sourceComments repo
          ⟨(repoNeeds cfg w.ckpt repo).2.2,
           w.trace ++ [RemoteOp.createRepo cfg.target_org repo], w.ckptLog,
           w.nextIssueNumber⟩) ∧
    (∀ msg, fail w.trace.length = some msg →
      (strContains msg "Repository creation failed" || strContains msg "422") = true →
      migrate_repository fail cfg content_ok sourceIssues sourceComments repo w =
        migrate_repository_rest fail cfg content_ok sourceIssues sourceComments repo
          ⟨(repoNeeds cfg w.ckpt repo).2.2,
           w.trace ++ [RemoteOp.createRepo cfg.target_org repo], w.ckptLog,
           w.nextIssueNumber⟩) ∧
    (∀ msg, fail w.trace.length = some msg →
      (strContains msg "Repository creation failed" || strContains msg "422") = false →
      migrate_repository fail cfg content_ok sourceIssues sourceComments repo w =
        (false, ⟨(repoNeeds cfg w.ckpt repo).2.2,
          w.trace ++ [RemoteOp.createRepo cfg.target_org repo], w.ckptLog,
          w.nextIssueNumber⟩) ∧
      (∀ r', contentDoneVal (repoNeeds cfg w.ckpt repo).2.2 r' = contentDoneVal w.ckpt r' ∧
        issuesDoneVal (repoNeeds cfg w.ckpt repo).2.2 r' = issuesDoneVal w.ckpt r' ∧
        ∀ n', is_issue_completed (repoNeeds cfg w.ckpt repo).2.2 r' n' =
          is_issue_completed w.ckpt r' n')) := by
  have hskip' : (!(repoNeeds cfg w.ckpt repo).1 && !(repoNeeds cfg w.ckpt repo).2.1)
      = false := by
    rcases hbusy with h | h <;> simp [h]
  refine ⟨?_, ?_, ?_⟩
  · intro hf
    simp only [migrate_repository, hskip', Bool.false_eq_true, if_false, callRemote, hf]
  · intro msg hf hm
    simp only [migrate_repository, hskip', Bool.false_eq_true, if_false, callRemote,
      hf, hm, if_true]
  · intro msg hf hm
    constructor
    · simp only [migrate_repository, hskip', Bool.false_eq_true, if_false, callRemote,
        hf, hm, if_false]
    · intro r'
      exact ⟨(repoNeeds_obs cfg w.ckpt repo r' 0).1,
        (repoNeeds_obs cfg w.ckpt repo r' 0).2.1,
        fun n' => (repoNeeds_obs cfg w.ckpt repo r' n').2.2⟩

theorem repo_creation_conflict_spec_witness :
    (migrate_repository noFail sampleCfg true [] noComments "repo" emptyWorld =
      migrate_repository_rest noFail sampleCfg true [] noComments "repo"
        ⟨(repoNeeds sampleCfg emptyWorld.ckpt "repo").2.2,
         emptyWorld.trace ++ [RemoteOp.createRepo "dst-org" "repo"], emptyWorld.ckptLog,
         emptyWorld.nextIssueNumber⟩) ∧
    (migrate_repository (failOn 0 "GitHub API error 422: name already exists") sampleCfg
        true [] noComments "repo" emptyWorld =
      migrate_repository_rest (failOn 0 "GitHub API error 422: name already exists")
        sampleCfg true [] noComments "repo"
        ⟨(repoNeeds sampleCfg emptyWorld.ckpt "repo").2.2,
         emptyWorld.trace ++ [RemoteOp.createRepo "dst-org" "repo"], emptyWorld.ckptLog,
         emptyWorld.nextIssueNumber⟩) ∧
    (migrate_repository (failOn 0 "GitHub API error 403: forbidden") sampleCfg true []
        noComments "repo" emptyWorld =
      (false, ⟨(repoNeeds sampleCfg emptyWorld.ckpt "repo").2.2,
        emptyWorld.trace ++ [RemoteOp.createRepo "dst-org" "repo"], emptyWorld.ckptLog,
        emptyWorld.nextIssueNumber⟩)) := by
  refine ⟨?_, ?_, ?_⟩
  · exact (repo_creation_conflict_spec noFail sampleCfg true [] noComments "repo"
      emptyWorld (Or.inl rfl)).1 rfl
  · exact (repo_creation_conflict_spec
      (failOn 0 "GitHub API error 422: name already exists") sampleCfg true [] noComments
      "repo" emptyWorld (Or.inl rfl)).2.1 "GitHub API error 422: name already exists"
      rfl rfl
  · exact ((repo_creation_conflict_spec (failOn 0 "GitHub API error 403: forbidden")
      sampleCfg true [] noComments "repo" emptyWorld (Or.inl rfl)).2.2
      "GitHub API error 403: forbidden" rfl rfl).1
